import Mathlib

/-!
# The propeller proxy: `Stream`, `streamHTTP` and `streamMQTT`

A shallow embedding of `proxy/service.go`, and the properties of its specification.

* Go `error` values are modelled by `GoError` trees (`fmt.Errorf` with `%w` wraps one
  error, `errors.Join` wraps a list), and the interface type `error` by `Option GoError`.
* Everything outside the file (the handler, the two connections, the registry client,
  the packet codec, the clocks behind the contexts) is a state-passing operation on an
  abstract world `W`, so the results of the operations may depend on all that happened
  before, in any goroutine.
* The three goroutines of one `Stream` call are three program counters; one step of one
  goroutine performs one operation on the world or on the channel `errs`. A run is the
  sequence of goroutines a scheduler picks, so every interleaving is a run; an operation
  that blocks for ever is a goroutine the scheduler never picks again.
* Every operation is logged, with its arguments and its result, in a trace.
* `context.WithTimeout` and the deferred `cancel` are not steps: the context of a loop is
  known by the polls of `Done` alone, and nothing is assumed on when they report expiry.
  `NewService` plays no part in a session and is left out.
-/

namespace Proxy

/-! ## Errors -/

/-- A byte slice. -/
abbrev Bytes := List Nat

/-- A non-nil Go error value: a plain error, the result of `fmt.Errorf` with one
`%w` operand (the text before the operand and the operand), or the result of
`errors.Join` (the non-nil operands, in order). -/
inductive GoError where
  | base (msg : String)
  | wrap (pfx : String) (inner : GoError)
  | join (errs : List GoError)

/-- The Go interface type `error`: `none` is `nil`. -/
abbrev error := Option GoError

mutual
/-- The method `Error()`: the message of an error. -/
def GoError.Error : GoError → String
  | .base m => m
  | .wrap p i => p ++ i.Error
  | .join es => GoError.joinLines es
/-- The messages of joined errors, separated by newlines. -/
def GoError.joinLines : List GoError → String
  | [] => ""
  | [e] => e.Error
  | e :: f :: es => e.Error ++ "\n" ++ GoError.joinLines (f :: es)
end

/-- The error tree of `err` holds `target`: `err` is `target`, or unwrapping `err`
(one level for a wrapped error, any member for a joined one) reaches it. This is the
walk `errors.Is` performs. -/
inductive GoError.Contains : GoError → GoError → Prop
  | self (e : GoError) : GoError.Contains e e
  | wrap (p : String) {i t : GoError} : GoError.Contains i t → GoError.Contains (.wrap p i) t
  | join {es : List GoError} {e t : GoError} :
      e ∈ es → GoError.Contains e t → GoError.Contains (.join es) t

/-- The function `errors.Join`: `nil` when every operand is `nil`, otherwise a new error that
wraps the non-nil operands in order. -/
def errors.Join (errs : List error) : error :=
  match errs.filterMap id with
  | [] => none
  | es => some (.join es)

/-- The call `fmt.Errorf(pfx + "%w", err)`: a new error that wraps `err`; with a nil
operand the verb prints as `%!w(<nil>)` and nothing is wrapped. -/
def fmt.Errorf (pfx : String) (err : error) : GoError :=
  match err with
  | some e => .wrap pfx e
  | none => .base (pfx ++ "%!w(<nil>)")

/-! ## Collaborators -/

/-- Modelled from the spec: the packet type of the MQTT codec (`packets.ControlPacket`) is
not in the repository; the variants are those of the data model, Connect, Publish with topic
and payload, Disconnect, and any other kind (with its bytes, so that two such packets can
differ). -/
inductive ControlPacket where
  | Connect
  | Publish (TopicName : String) (Payload : Bytes)
  | Disconnect
  | Other (raw : Bytes)
  deriving DecidableEq, Repr

/-- The packet with the payload field set to `b`: a Publish packet with the new payload, any
other packet as it is. -/
def ControlPacket.withPayload : ControlPacket → Bytes → ControlPacket
  | .Publish topic _, b => .Publish topic b
  | p, _ => p

/-- The payload field of a Publish packet. -/
def ControlPacket.payload : ControlPacket → Option Bytes
  | .Publish _ b => some b
  | _ => none

/-- The packet but for the payload field. -/
def ControlPacket.erase (p : ControlPacket) : ControlPacket :=
  p.withPayload []

/-- The packet `packets.NewControlPacket(packets.Disconnect)`. -/
def packets.NewDisconnect : ControlPacket := .Disconnect

/-- A `net.Conn`, by identity. -/
structure Conn where
  id : Nat
  deriving DecidableEq, Repr

/-- The contexts of one session: the one given to `Stream`, and the two contexts with a
30-second timeout that `streamHTTP` and `streamMQTT` derive from it. -/
inductive Ctx where
  | parent
  | http
  | mqtt
  deriving DecidableEq, Repr

/-- Modelled from the spec: the interface `Handler` is declared outside `service.go`, with
`Connect(ctx) error`, `Publish(ctx, topic *string, payload *[]byte) error` and
`Disconnect(ctx) error`. `Publish` is called as `h.Publish(ctx, &topics, &p.Payload)`: besides
its error it yields the payload of the packet as the call leaves it (the topic it is given is
a copy, `topics := p.TopicName`, whose fate does not matter). -/
structure Handler (W : Type) where
  Connect : Ctx → W → error × W
  Publish : Ctx → String → Bytes → W → (error × Bytes) × W
  Disconnect : Ctx → W → error × W

/-- The rest of the world: `Done c` is the poll `select { case <-c.Done(): ...; default: ... }`
and yields `c.Err()` when the context is done; `Init` is `orasHTTP.Init()` (only its error
matters, the client it returns is used for `FetchFromReg` alone); `PacketWrite p w` is
`p.Write(w)` and `Write w data` is `w.Write(data)`. -/
structure Env (W : Type) where
  Done : Ctx → W → error × W
  Init : W → error × W
  FetchFromReg : Ctx → W → Except GoError Bytes × W
  ReadPacket : Conn → W → Except GoError ControlPacket × W
  PacketWrite : ControlPacket → Conn → W → error × W
  Write : Conn → Bytes → W → error × W

/-! ## Goroutines, events and states -/

/-- The goroutines of one session: the caller of `Stream` and the two loops. -/
inductive Tid where
  | main
  | http
  | mqtt
  deriving DecidableEq, Repr

/-- One logged operation, with its arguments and its result. -/
inductive Event where
  | Init (res : error)
  | Done (c : Ctx) (res : error)
  | FetchFromReg (c : Ctx) (res : Except GoError Bytes)
  | ReadPacket (r : Conn) (res : Except GoError ControlPacket)
  | PacketWrite (p : ControlPacket) (w : Conn) (res : error)
  | Write (w : Conn) (data : Bytes) (res : error)
  | Connect (c : Ctx) (res : error)
  | Publish (c : Ctx) (topic : String) (payload : Bytes) (res : error) (left : Bytes)
  | Disconnect (c : Ctx) (res : error)
  | send (e : error)
  | recv (e : error)

/-- Where `streamHTTP` stands: before `orasHTTP.Init()`, at the `select`, before the fetch,
before `h.Connect`, before `w.Write(data)`, before `errs <- e; return`, returned. -/
inductive HttpPc where
  | init
  | top
  | fetch
  | connect (data : Bytes)
  | write (data : Bytes)
  | send (e : error)
  | done

/-- Where `streamMQTT` stands: at the `select`, before `ReadPacket`, in one of the three cases
of the type switch (before the handler call), before the write of the synthesized Disconnect
packet, before the relay `pkt.Write(w)`, before `errs <- e` (followed by `return` when `ret`
is set, by the next iteration otherwise), returned. -/
inductive MqttPc where
  | top
  | read
  | publish (pkt : ControlPacket) (topics : String) (payload : Bytes)
  | pubFail (err : GoError)
  | connect (pkt : ControlPacket)
  | disconnect
  | relay (pkt : ControlPacket)
  | send (e : error) (ret : Bool)
  | done

/-- Where `Stream` stands once both goroutines are started: before `err := <-errs`, before
`h.Disconnect(ctx)`, returned with a result. -/
inductive MainPc where
  | recv
  | disconnect (err : error)
  | returned (result : error)

/-- The state of one session. `errs` is the content of the channel, oldest value first. -/
structure State (W : Type) where
  world : W
  errs : List error
  http : HttpPc
  mqtt : MqttPc
  main : MainPc
  trace : List (Tid × Event)

/-- The capacity of the channel: `make(chan error, 2)`. -/
def errsCap : Nat := 2

section Steps

variable {W : Type}

/-- One step of `streamHTTP(ctx, _, w, h, errs)`; `none` when the goroutine has returned or
its send has no room in the channel. -/
def streamHTTP.step (E : Env W) (_r w : Conn) (h : Handler W) (s : State W) :
    Option (State W) :=
  match s.http with
  | .init =>
    let res := E.Init s.world
    some { s with
      world := res.2, trace := s.trace ++ [(.http, .Init res.1)],
      http := match res.1 with
        | some err => .send (some err)
        | none => .top }
  | .top =>
    let res := E.Done .http s.world
    some { s with
      world := res.2, trace := s.trace ++ [(.http, .Done .http res.1)],
      http := match res.1 with
        | some err => .send (some err)
        | none => .fetch }
  | .fetch =>
    let res := E.FetchFromReg .http s.world
    some { s with
      world := res.2, trace := s.trace ++ [(.http, .FetchFromReg .http res.1)],
      http := match res.1 with
        | .error err => .send (some err)
        | .ok data => .connect data }
  | .connect data =>
    let res := h.Connect .http s.world
    some { s with
      world := res.2, trace := s.trace ++ [(.http, .Connect .http res.1)],
      http := match res.1 with
        | some err => .send (some err)
        | none => .write data }
  | .write data =>
    let res := E.Write w data s.world
    some { s with
      world := res.2, trace := s.trace ++ [(.http, .Write w data res.1)],
      http := match res.1 with
        | some err => .send (some err)
        | none => .top }
  | .send e =>
    if s.errs.length < errsCap then
      some { s with
        errs := s.errs ++ [e], trace := s.trace ++ [(.http, .send e)], http := .done }
    else none
  | .done => none

/-- The type switch of `streamMQTT`: the case a packet selects, the relay step for a packet
of any other kind. -/
def streamMQTT.switch (pkt : ControlPacket) : MqttPc :=
  match pkt with
  | .Publish topic payload => .publish pkt topic payload
  | .Connect => .connect pkt
  | .Disconnect => .disconnect
  | _ => .relay pkt

/-- The error `streamMQTT` reports when `h.Publish` failed with `err` and the write of the
synthesized Disconnect packet returned `wErr`: `err` is first replaced by
`errors.Join(err, wErr)` when `wErr` is not nil, then wrapped by `fmt.Errorf`. -/
def streamMQTT.publishError (err : GoError) (wErr : error) : GoError :=
  fmt.Errorf "MQTT publish error: "
    (match wErr with
      | some w => errors.Join [some err, some w]
      | none => some err)

/-- One step of `streamMQTT(ctx, r, w, h, errs)`; `none` when the goroutine has returned or
its send has no room in the channel. -/
def streamMQTT.step (E : Env W) (r w : Conn) (h : Handler W) (s : State W) :
    Option (State W) :=
  match s.mqtt with
  | .top =>
    let res := E.Done .mqtt s.world
    some { s with
      world := res.2, trace := s.trace ++ [(.mqtt, .Done .mqtt res.1)],
      mqtt := match res.1 with
        | some err => .send (some err) false
        | none => .read }
  | .read =>
    let res := E.ReadPacket r s.world
    some { s with
      world := res.2, trace := s.trace ++ [(.mqtt, .ReadPacket r res.1)],
      mqtt := match res.1 with
        | .error err => .send (some err) true
        | .ok pkt => streamMQTT.switch pkt }
  | .publish pkt topics payload =>
    let res := h.Publish .mqtt topics payload s.world
    some { s with
      world := res.2,
      trace := s.trace ++ [(.mqtt, .Publish .mqtt topics payload res.1.1 res.1.2)],
      mqtt := match res.1.1 with
        | some err => .pubFail err
        | none => .relay (pkt.withPayload res.1.2) }
  | .pubFail err =>
    let res := E.PacketWrite packets.NewDisconnect w s.world
    some { s with
      world := res.2,
      trace := s.trace ++ [(.mqtt, .PacketWrite packets.NewDisconnect w res.1)],
      mqtt := .send (some (streamMQTT.publishError err res.1)) true }
  | .connect pkt =>
    let res := h.Connect .mqtt s.world
    some { s with
      world := res.2, trace := s.trace ++ [(.mqtt, .Connect .mqtt res.1)],
      mqtt := match res.1 with
        | some err => .send (some (fmt.Errorf "MQTT connection error: " (some err))) true
        | none => .relay pkt }
  | .disconnect =>
    let res := h.Disconnect .mqtt s.world
    some { s with
      world := res.2, trace := s.trace ++ [(.mqtt, .Disconnect .mqtt res.1)],
      mqtt := .send res.1 true }
  | .relay pkt =>
    let res := E.PacketWrite pkt w s.world
    some { s with
      world := res.2, trace := s.trace ++ [(.mqtt, .PacketWrite pkt w res.1)],
      mqtt := match res.1 with
        | some err => .send (some err) true
        | none => .top }
  | .send e ret =>
    if s.errs.length < errsCap then
      some { s with
        errs := s.errs ++ [e], trace := s.trace ++ [(.mqtt, .send e)],
        mqtt := if ret then .done else .top }
    else none
  | .done => none

/-- One step of the caller's goroutine in `Stream`, after the two `go` statements; `none`
when `Stream` has returned or the channel is empty. -/
def Stream.main (h : Handler W) (s : State W) : Option (State W) :=
  match s.main with
  | .recv =>
    match s.errs with
    | [] => none
    | err :: rest =>
      some { s with errs := rest, trace := s.trace ++ [(.main, .recv err)],
                    main := .disconnect err }
  | .disconnect err =>
    let res := h.Disconnect .parent s.world
    some { s with
      world := res.2, trace := s.trace ++ [(.main, .Disconnect .parent res.1)],
      main := .returned (errors.Join [err, res.1]) }
  | .returned _ => none

/-- One step of goroutine `t` in the session `Stream(ctx, in, out, h)`: the two loops are
started as `streamHTTP(ctx, in, out, h, errs)` and `streamMQTT(ctx, out, in, h, errs)`. -/
def Stream.step (E : Env W) (inn out : Conn) (h : Handler W) (t : Tid) (s : State W) :
    Option (State W) :=
  match t with
  | .main => Stream.main h s
  | .http => streamHTTP.step E inn out h s
  | .mqtt => streamMQTT.step E out inn h s

/-- The state after `errs := make(chan error, 2)` and the two `go` statements. -/
def Stream.start (σ : W) : State W :=
  { world := σ, errs := [], http := .init, mqtt := .top, main := .recv, trace := [] }

/-- A run from `s`: the scheduler picks the goroutines of `sched` in turn; a goroutine that
cannot move (returned, or blocked on the channel) leaves the state as it is. -/
def Stream.run (E : Env W) (inn out : Conn) (h : Handler W) (sched : List Tid)
    (s : State W) : State W :=
  sched.foldl (fun s t => (Stream.step E inn out h t s).getD s) s

/-- A session of `Stream(ctx, in, out, h)` in the world `σ` under the schedule `sched`. -/
def Stream (E : Env W) (inn out : Conn) (h : Handler W) (sched : List Tid) (σ : W) :
    State W :=
  Stream.run E inn out h sched (Stream.start σ)

end Steps

/-! ## Reading a trace -/

/-- The operations of goroutine `t` in a trace, in order. -/
def eventsOf (t : Tid) (tr : List (Tid × Event)) : List Event :=
  tr.filterMap (fun x => if x.1 = t then some x.2 else none)

/-- The event is a call of `h.Disconnect`. -/
def Event.isDisconnect : Event → Bool
  | .Disconnect _ _ => true
  | _ => false

/-- The event is a successful read of a Disconnect packet. -/
def Event.readsDisconnect : Event → Bool
  | .ReadPacket _ (.ok .Disconnect) => true
  | _ => false

/-- The number of calls of `h.Disconnect` goroutine `t` has made. -/
def disconnectCalls (t : Tid) (tr : List (Tid × Event)) : Nat :=
  (eventsOf t tr).countP Event.isDisconnect

/-- The number of Disconnect packets the packet loop has read. -/
def disconnectPackets (tr : List (Tid × Event)) : Nat :=
  (eventsOf .mqtt tr).countP Event.readsDisconnect

/-- The wiring the code gives a session `Stream(ctx, in, out, h)`: packets are read by the
packet loop, from `out`; packets are written by the packet loop, to `in`; payloads are
written by the fetch loop, to `out`. -/
def Stream.wiring (inn out : Conn) (x : Tid × Event) : Bool :=
  match x with
  | (t, .ReadPacket r _) => decide (t = .mqtt) && decide (r = out)
  | (t, .PacketWrite _ w _) => decide (t = .mqtt) && decide (w = inn)
  | (t, .Write w _ _) => decide (t = .http) && decide (w = out)
  | _ => true

/-- The wiring as the specification words it: packets are read by the packet loop, from
`in`; packets are written by the packet loop, to `out`; payloads are written by the fetch
loop, to `out`. -/
def Stream.specWiring (inn out : Conn) (x : Tid × Event) : Bool :=
  match x with
  | (t, .ReadPacket r _) => decide (t = .mqtt) && decide (r = inn)
  | (t, .PacketWrite _ w _) => decide (t = .mqtt) && decide (w = out)
  | (t, .Write w _ _) => decide (t = .http) && decide (w = out)
  | _ => true

/-- The packet loop is past a Disconnect packet or past a failure: it will not read again. -/
def MqttPc.stopping : MqttPc → Bool
  | .disconnect => true
  | .send _ true => true
  | .done => true
  | _ => false

/-- The calls of `h.Disconnect` the packet loop owes: one in the Disconnect case of the
switch, before the call. -/
def MqttPc.pending : MqttPc → Nat
  | .disconnect => 1
  | _ => 0

/-- The value an event puts on the channel. -/
def Event.sent : Event → Option error
  | .send e => some e
  | _ => none

/-- The value an event takes from the channel. -/
def Event.received : Event → Option error
  | .recv e => some e
  | _ => none

/-- The packet a successful read delivers. -/
def Event.packetRead : Event → Option ControlPacket
  | .ReadPacket _ (.ok p) => some p
  | _ => none

/-- The packet a packet write is given, and the connection. -/
def Event.packetWritten : Event → Option (ControlPacket × Conn)
  | .PacketWrite p w _ => some (p, w)
  | _ => none

/-- A call of a handler method, with its arguments (the context apart). -/
inductive Call where
  | Connect
  | Publish (topic : String) (payload : Bytes)
  | Disconnect
  deriving DecidableEq, Repr

/-- The payload a call of `h.Publish` leaves. -/
def Event.left : Event → Option Bytes
  | .Publish _ _ _ _ b => some b
  | _ => none

/-- The handler call an event is. -/
def Event.call : Event → Option Call
  | .Connect _ _ => some .Connect
  | .Publish _ topic payload _ _ => some (.Publish topic payload)
  | .Disconnect _ _ => some .Disconnect
  | _ => none

/-- The operation succeeded: a poll that finds the context alive, a fetch or a read that
delivers, a write or a handler call that returns nil. Channel operations always count. -/
def Event.ok : Event → Bool
  | .Init none => true
  | .Done _ none => true
  | .FetchFromReg _ (.ok _) => true
  | .ReadPacket _ (.ok _) => true
  | .PacketWrite _ _ none => true
  | .Write _ _ none => true
  | .Connect _ none => true
  | .Publish _ _ _ none _ => true
  | .Disconnect _ none => true
  | .send _ => true
  | .recv _ => true
  | _ => false

/-- The handler call the packet loop makes for a packet: none for a packet of another
kind. -/
def Call.ofPacket : ControlPacket → Option Call
  | .Connect => some .Connect
  | .Publish topic payload => some (.Publish topic payload)
  | .Disconnect => some .Disconnect
  | .Other _ => none

/-- The values goroutine `t` has sent on the channel, in order. -/
def sends (t : Tid) (tr : List (Tid × Event)) : List error :=
  (eventsOf t tr).filterMap Event.sent

/-- All values sent on the channel, in order. -/
def allSent (tr : List (Tid × Event)) : List error :=
  tr.filterMap (fun x => x.2.sent)

/-- The packets the packet loop has read, in order. -/
def packetsRead (tr : List (Tid × Event)) : List ControlPacket :=
  (eventsOf .mqtt tr).filterMap Event.packetRead

/-- The packets the packet loop has written, in order, each with the connection. -/
def packetsWritten (tr : List (Tid × Event)) : List (ControlPacket × Conn) :=
  (eventsOf .mqtt tr).filterMap Event.packetWritten

/-- The payloads the calls of `h.Publish` by the packet loop left, in order. -/
def payloadsLeft (tr : List (Tid × Event)) : List Bytes :=
  (eventsOf .mqtt tr).filterMap Event.left

/-- The handler calls of goroutine `t`, in order. -/
def handlerCalls (t : Tid) (tr : List (Tid × Event)) : List Call :=
  (eventsOf t tr).filterMap Event.call

/-- What the operations of `Stream` itself are, by the place it stands at. -/
def MainInv (pc : MainPc) (evs : List Event) : Prop :=
  match pc with
  | .recv => evs = []
  | .disconnect e => evs = [.recv e]
  | .returned r => ∃ e d, evs = [.recv e, .Disconnect .parent d] ∧ r = errors.Join [e, d]

/-- The places the packet loop can stand at while all its operations have succeeded, with
what is known there: the packet in hand is of the kind of the case, a relayed packet is not
a Disconnect packet, and the only send ahead is that of a nil result, before the return. -/
def MqttPc.okPlace : MqttPc → Prop
  | .publish pkt topics payload => pkt = .Publish topics payload
  | .connect pkt => pkt = .Connect
  | .relay pkt => pkt ≠ .Disconnect
  | .pubFail _ => False
  | .send e ret => e = none ∧ ret = true
  | _ => True

/-- The packet the packet loop has read and not written: the one in hand, or the Disconnect
packet that ended the loop. -/
def MqttPc.inHand : MqttPc → List ControlPacket
  | .publish pkt _ _ => [pkt]
  | .connect pkt => [pkt]
  | .disconnect => [.Disconnect]
  | .relay pkt => [pkt]
  | .send _ _ => [.Disconnect]
  | .done => [.Disconnect]
  | _ => []

/-- The packet in hand whose handler call is done, or that calls for none. -/
def MqttPc.handled : MqttPc → List ControlPacket
  | .relay pkt => [pkt]
  | _ => []

/-- The packet in hand whose handler call is still ahead. -/
def MqttPc.uncalled : MqttPc → List ControlPacket
  | .publish pkt _ _ => [pkt]
  | .connect pkt => [pkt]
  | .disconnect => [.Disconnect]
  | _ => []

/-- The values the packet loop has sent while all its operations have succeeded: the nil
result of `h.Disconnect`, once it has returned. -/
def MqttPc.sentOk : MqttPc → List error
  | .done => [none]
  | _ => []

/-- What the operations of the packet loop are, by the place it stands at, as long as all
of them succeeded: the packets written, none of them a Disconnect packet and all to `w`, are
the packets read but for the one in hand, up to the payloads; the payloads written are those
`h.Publish` left; the handler calls are those the packets read call for, but for the one
ahead; nothing is sent before the loop returns. -/
def MqttOkInv (w : Conn) (pc : MqttPc) (evs : List Event) : Prop :=
  evs.all Event.ok = true →
    pc.okPlace ∧
    (∀ x ∈ evs.filterMap Event.packetWritten, x.1 ≠ .Disconnect ∧ x.2 = w) ∧
    (evs.filterMap Event.packetRead).map ControlPacket.erase =
      ((evs.filterMap Event.packetWritten).map Prod.fst ++ pc.inHand).map
        ControlPacket.erase ∧
    evs.filterMap Event.call ++ pc.uncalled.filterMap Call.ofPacket =
      (evs.filterMap Event.packetRead).filterMap Call.ofPacket ∧
    ((evs.filterMap Event.packetWritten).map Prod.fst ++ pc.handled).filterMap
        ControlPacket.payload = evs.filterMap Event.left ∧
    evs.filterMap Event.sent = pc.sentOk

/-- The event is a poll that finds the context done. -/
def Event.expired : Event → Bool
  | .Done _ (some _) => true
  | _ => false

/-- The number of polls of goroutine `t` that found its context done. -/
def expiries (t : Tid) (tr : List (Tid × Event)) : Nat :=
  (eventsOf t tr).countP Event.expired

/-- The packet loop is about to send and then to go on with the next iteration. -/
def MqttPc.resending : MqttPc → Nat
  | .send _ false => 1
  | _ => 0

/-- The packet loop has returned. -/
def MqttPc.returned : MqttPc → Nat
  | .done => 1
  | _ => 0

/-- The number of values the fetch loop has sent by the place it stands at: one once it has
returned. -/
def HttpPc.sent : HttpPc → Nat
  | .done => 1
  | _ => 0

/-- The calls of `h.Disconnect` that `Stream` itself has made: one once it has returned. -/
def MainPc.disconnected : MainPc → Nat
  | .returned _ => 1
  | _ => 0

/-- The bookkeeping of `h.Disconnect` calls that every step preserves. -/
def DisconnectInv {W : Type} (s : State W) : Prop :=
  disconnectCalls .main s.trace = s.main.disconnected ∧
  disconnectCalls .http s.trace = 0 ∧
  disconnectCalls .mqtt s.trace + s.mqtt.pending = disconnectPackets s.trace ∧
  disconnectPackets s.trace ≤ 1 ∧
  (s.mqtt.stopping = false → disconnectPackets s.trace = 0)

/-! ## A scripted world

A concrete world for running sessions: the packets and payloads the peers will deliver,
the number of polls each loop context survives, and the fixed result of every other
operation. -/

/-- The scripted world. Reading past the last packet, or fetching past the last payload,
fails with end of file. -/
structure Sim where
  packets : List ControlPacket
  payloads : List Bytes
  httpLife : Nat
  mqttLife : Nat
  initErr : error
  connectErr : error
  publishErr : error
  publishLeaves : Option Bytes
  disconnectErr : error
  packetWriteErr : error
  writeErr : error

/-- The error of an expired context. -/
def DeadlineExceeded : GoError := .base "context deadline exceeded"

/-- The error of a read at the end of the input. -/
def EOF : GoError := .base "EOF"

/-- The handler of the scripted world. -/
def Sim.handler : Handler Sim where
  Connect := fun _ σ => (σ.connectErr, σ)
  Publish := fun _ _ payload σ => ((σ.publishErr, (σ.publishLeaves.getD payload)), σ)
  Disconnect := fun _ σ => (σ.disconnectErr, σ)

/-- The collaborators of the scripted world. A loop context, once expired, stays expired;
the parent context never expires. -/
def Sim.env : Env Sim where
  Done := fun c σ =>
    match c with
    | .parent => (none, σ)
    | .http =>
      match σ.httpLife with
      | 0 => (some DeadlineExceeded, σ)
      | n + 1 => (none, { σ with httpLife := n })
    | .mqtt =>
      match σ.mqttLife with
      | 0 => (some DeadlineExceeded, σ)
      | n + 1 => (none, { σ with mqttLife := n })
  Init := fun σ => (σ.initErr, σ)
  FetchFromReg := fun _ σ =>
    match σ.payloads with
    | [] => (.error EOF, σ)
    | b :: bs => (.ok b, { σ with payloads := bs })
  ReadPacket := fun _ σ =>
    match σ.packets with
    | [] => (.error EOF, σ)
    | p :: ps => (.ok p, { σ with packets := ps })
  PacketWrite := fun _ _ σ => (σ.packetWriteErr, σ)
  Write := fun _ _ σ => (σ.writeErr, σ)

/-- A scripted world in which every operation succeeds and no context expires within
`life` polls. -/
def Sim.ok (packets : List ControlPacket) (payloads : List Bytes) (life : Nat) : Sim :=
  { packets := packets, payloads := payloads, httpLife := life, mqttLife := life,
    initErr := none, connectErr := none, publishErr := none, publishLeaves := none,
    disconnectErr := none,
    packetWriteErr := none, writeErr := none }

/-- A scripted world in which `h.Publish` is refused and the connections are broken: one
Publish packet is waiting. -/
def Sim.denied : Sim :=
  { Sim.ok [.Publish "sensors/temp" [1, 2]] [] 9 with
    publishErr := some (.base "denied"), packetWriteErr := some (.base "broken pipe") }

/-- A scripted world in which `h.Publish` succeeds and leaves the payload `09` in place of
the one it was given: one Publish packet and one Disconnect packet are waiting. -/
def Sim.rewriting : Sim :=
  { Sim.ok [.Publish "sensors/temp" [1, 2], .Disconnect] [] 9 with publishLeaves := some [9] }

/-- The error of an expired context, as a value on the channel. -/
def expired : error := some DeadlineExceeded

/-- A scripted session in which the fetch loop is stuck: it stands at the send of the context
error, it has sent nothing, the channel is full, `Stream` has returned, and the packet loop,
whose context is done, is at the top of its loop or at its next send. -/
def Sim.Stuck (s : State Sim) : Prop :=
  s.http = .send expired ∧ sends .http s.trace = [] ∧ s.errs.length = errsCap ∧
    s.main.disconnected = 1 ∧ s.world.mqttLife = 0 ∧
    (s.mqtt = .top ∨ s.mqtt = .send expired false)

/-- The schedule that leaves the fetch loop stuck when both loop contexts are done from the
start: the packet loop sends twice, `Stream` receives and returns, the packet loop sends
again, and the fetch loop comes to its send. -/
def Sim.floodSchedule : List Tid :=
  [.mqtt, .mqtt, .mqtt, .mqtt, .main, .main, .mqtt, .mqtt, .http, .http, .http]

/-- No handler call and no packet write fails in the scripted world. -/
def Sim.Healthy (σ : Sim) : Prop :=
  σ.connectErr = none ∧ σ.publishErr = none ∧ σ.disconnectErr = none ∧
    σ.packetWriteErr = none

/-- The connection passed to `Stream` as `in` in the scripted sessions. -/
def connIn : Conn := ⟨0⟩

/-- The connection passed to `Stream` as `out` in the scripted sessions. -/
def connOut : Conn := ⟨1⟩

/-- A scripted session. -/
def Sim.session (sched : List Tid) (σ : Sim) : State Sim :=
  Stream Sim.env connIn connOut Sim.handler sched σ

/-! ## Frames and runs -/

section Basics

variable {W : Type}

theorem eventsOf_append (t : Tid) (a b : List (Tid × Event)) :
    eventsOf t (a ++ b) = eventsOf t a ++ eventsOf t b := by
  simp [eventsOf, List.filterMap_append]

theorem eventsOf_single (t u : Tid) (ev : Event) :
    eventsOf t [(u, ev)] = if u = t then [ev] else [] := by
  by_cases hu : u = t <;> simp [eventsOf, List.filterMap_cons, hu]

theorem streamHTTP_step_frame (E : Env W) (r w : Conn) (h : Handler W) {s s' : State W}
    (hs : streamHTTP.step E r w h s = some s') :
    s'.mqtt = s.mqtt ∧ s'.main = s.main ∧ (∃ ev, s'.trace = s.trace ++ [(.http, ev)]) ∧
    ∃ more, s'.errs = s.errs ++ more := by
  unfold streamHTTP.step at hs
  split at hs <;> first
    | (simp only [Option.some.injEq] at hs; subst hs; simp)
    | (split at hs <;> simp only [Option.some.injEq, reduceCtorEq] at hs; subst hs; simp)
    | simp at hs

theorem streamMQTT_step_frame (E : Env W) (r w : Conn) (h : Handler W) {s s' : State W}
    (hs : streamMQTT.step E r w h s = some s') :
    s'.http = s.http ∧ s'.main = s.main ∧ (∃ ev, s'.trace = s.trace ++ [(.mqtt, ev)]) ∧
    ∃ more, s'.errs = s.errs ++ more := by
  unfold streamMQTT.step at hs
  split at hs <;> first
    | (simp only [Option.some.injEq] at hs; subst hs; simp)
    | (split at hs <;> simp only [Option.some.injEq, reduceCtorEq] at hs; subst hs; simp)
    | simp at hs

theorem Stream_main_frame {h : Handler W} {s s' : State W}
    (hs : Stream.main h s = some s') :
    s'.http = s.http ∧ s'.mqtt = s.mqtt ∧ ∃ ev, s'.trace = s.trace ++ [(.main, ev)] := by
  unfold Stream.main at hs
  split at hs
  · split at hs
    · simp at hs
    · simp only [Option.some.injEq] at hs; subst hs; simp
  · simp only [Option.some.injEq] at hs; subst hs; simp
  · simp at hs

variable (E : Env W) (inn out : Conn) (h : Handler W)

theorem Stream_run_nil (s : State W) : Stream.run E inn out h [] s = s := rfl

theorem Stream_run_cons (t : Tid) (sched : List Tid) (s : State W) :
    Stream.run E inn out h (t :: sched) s =
      Stream.run E inn out h sched ((Stream.step E inn out h t s).getD s) := rfl

theorem Stream_run_append (a b : List Tid) (s : State W) :
    Stream.run E inn out h (a ++ b) s =
      Stream.run E inn out h b (Stream.run E inn out h a s) := by
  simp [Stream.run, List.foldl_append]

/-- A property that holds at a state and that every step preserves holds after every run. -/
theorem Stream_run_invariant (P : State W → Prop)
    (hstep : ∀ t s s', P s → Stream.step E inn out h t s = some s' → P s')
    (sched : List Tid) (s : State W) (hP : P s) : P (Stream.run E inn out h sched s) := by
  induction sched generalizing s with
  | nil => exact hP
  | cons t sched ih =>
    rw [Stream_run_cons]
    apply ih
    cases hs : Stream.step E inn out h t s with
    | none => exact hP
    | some s' => exact hstep t s s' hP hs

/-- While the packet loop is not scheduled, its position and its operations stay. -/
theorem Stream_run_without_mqtt (sched : List Tid) (hno : Tid.mqtt ∉ sched) (s : State W) :
    (Stream.run E inn out h sched s).mqtt = s.mqtt ∧
    eventsOf .mqtt (Stream.run E inn out h sched s).trace = eventsOf .mqtt s.trace := by
  induction sched generalizing s with
  | nil => exact ⟨rfl, rfl⟩
  | cons t sched ih =>
    have ht : t ≠ Tid.mqtt := fun e => hno (e ▸ List.mem_cons_self _ _)
    have hno' : Tid.mqtt ∉ sched := fun e => hno (List.mem_cons_of_mem _ e)
    rw [Stream_run_cons]
    cases hs : Stream.step E inn out h t s with
    | none => simpa using ih hno' s
    | some s' =>
      have key : s'.mqtt = s.mqtt ∧ eventsOf .mqtt s'.trace = eventsOf .mqtt s.trace := by
        cases t with
        | mqtt => exact absurd rfl ht
        | main =>
          obtain ⟨_, h2, ev, h3⟩ := Stream_main_frame hs
          simp [h2, h3, eventsOf_append, eventsOf_single]
        | http =>
          obtain ⟨h1, _, ⟨ev, h3⟩, _⟩ := streamHTTP_step_frame E inn out h hs
          simp [h1, h3, eventsOf_append, eventsOf_single]
      have := ih hno' s'
      simp only [Option.getD_some]
      rw [this.1, this.2, key.1, key.2]
      exact ⟨rfl, rfl⟩

/-- While the fetch loop is not scheduled, its position and its operations stay. -/
theorem Stream_run_without_http (sched : List Tid) (hno : Tid.http ∉ sched) (s : State W) :
    (Stream.run E inn out h sched s).http = s.http ∧
    eventsOf .http (Stream.run E inn out h sched s).trace = eventsOf .http s.trace := by
  induction sched generalizing s with
  | nil => exact ⟨rfl, rfl⟩
  | cons t sched ih =>
    have ht : t ≠ Tid.http := fun e => hno (e ▸ List.mem_cons_self _ _)
    have hno' : Tid.http ∉ sched := fun e => hno (List.mem_cons_of_mem _ e)
    rw [Stream_run_cons]
    cases hs : Stream.step E inn out h t s with
    | none => simpa using ih hno' s
    | some s' =>
      have key : s'.http = s.http ∧ eventsOf .http s'.trace = eventsOf .http s.trace := by
        cases t with
        | http => exact absurd rfl ht
        | main =>
          obtain ⟨h1, _, ev, h3⟩ := Stream_main_frame hs
          simp [h1, h3, eventsOf_append, eventsOf_single]
        | mqtt =>
          obtain ⟨h1, _, ⟨ev, h3⟩, _⟩ := streamMQTT_step_frame E out inn h hs
          simp [h1, h3, eventsOf_append, eventsOf_single]
      have := ih hno' s'
      simp only [Option.getD_some]
      rw [this.1, this.2, key.1, key.2]
      exact ⟨rfl, rfl⟩

/-- While the caller is not scheduled, its position and its operations stay, and the channel
only grows at its end. -/
theorem Stream_run_without_main (sched : List Tid) (hno : Tid.main ∉ sched) (s : State W) :
    (Stream.run E inn out h sched s).main = s.main ∧
    eventsOf .main (Stream.run E inn out h sched s).trace = eventsOf .main s.trace ∧
    ∃ more, (Stream.run E inn out h sched s).errs = s.errs ++ more := by
  induction sched generalizing s with
  | nil => exact ⟨rfl, rfl, [], by simp [Stream_run_nil]⟩
  | cons t sched ih =>
    have ht : t ≠ Tid.main := fun e => hno (e ▸ List.mem_cons_self _ _)
    have hno' : Tid.main ∉ sched := fun e => hno (List.mem_cons_of_mem _ e)
    rw [Stream_run_cons]
    cases hs : Stream.step E inn out h t s with
    | none => simpa using ih hno' s
    | some s' =>
      have key : s'.main = s.main ∧ eventsOf .main s'.trace = eventsOf .main s.trace ∧
          ∃ more, s'.errs = s.errs ++ more := by
        cases t with
        | main => exact absurd rfl ht
        | http =>
          obtain ⟨_, h2, ⟨ev, h3⟩, h4⟩ := streamHTTP_step_frame E inn out h hs
          simp [h2, h3, h4, eventsOf_append, eventsOf_single]
        | mqtt =>
          obtain ⟨_, h2, ⟨ev, h3⟩, h4⟩ := streamMQTT_step_frame E out inn h hs
          simp [h2, h3, h4, eventsOf_append, eventsOf_single]
      obtain ⟨i1, i2, m2, i3⟩ := ih hno' s'
      obtain ⟨k1, k2, m1, k3⟩ := key
      simp only [Option.getD_some]
      refine ⟨by rw [i1, k1], by rw [i2, k2], m1 ++ m2, ?_⟩
      rw [i3, k3, List.append_assoc]

end Basics

section Counting
variable {W : Type}

theorem disconnectCalls_snoc (t u : Tid) (tr : List (Tid × Event)) (ev : Event) :
    disconnectCalls t (tr ++ [(u, ev)]) =
      disconnectCalls t tr + if u = t then (if ev.isDisconnect then 1 else 0) else 0 := by
  unfold disconnectCalls
  rw [eventsOf_append, eventsOf_single]
  by_cases hu : u = t <;> by_cases he : ev.isDisconnect <;> simp [hu, he, List.countP_append, List.countP_cons]

theorem disconnectPackets_snoc (u : Tid) (tr : List (Tid × Event)) (ev : Event) :
    disconnectPackets (tr ++ [(u, ev)]) =
      disconnectPackets tr + if u = .mqtt then (if ev.readsDisconnect then 1 else 0) else 0 := by
  unfold disconnectPackets
  rw [eventsOf_append, eventsOf_single]
  by_cases hu : u = .mqtt <;> by_cases he : ev.readsDisconnect <;> simp [hu, he, List.countP_append, List.countP_cons]

theorem DisconnectInv_step (E : Env W) (inn out : Conn) (h : Handler W) (t : Tid)
    (s s' : State W) (hP : DisconnectInv s) (hs : Stream.step E inn out h t s = some s') :
    DisconnectInv s' := by
  obtain ⟨p1, p2, p3, p4, p5⟩ := hP
  cases t with
  | main =>
    simp only [Stream.step, Stream.main] at hs
    split at hs
    · split at hs
      · simp at hs
      · simp only [Option.some.injEq] at hs; subst hs
        simp_all [DisconnectInv, disconnectCalls_snoc, disconnectPackets_snoc, Event.isDisconnect,
          MainPc.disconnected]
    · simp only [Option.some.injEq] at hs; subst hs
      simp_all [DisconnectInv, disconnectCalls_snoc, disconnectPackets_snoc, Event.isDisconnect,
          MainPc.disconnected]
    · simp at hs
  | http =>
    simp only [Stream.step, streamHTTP.step] at hs
    split at hs <;> first
      | (simp only [Option.some.injEq] at hs; subst hs
         simp_all [DisconnectInv, disconnectCalls_snoc, disconnectPackets_snoc, Event.isDisconnect,
          Event.readsDisconnect])
      | (split at hs <;> simp only [Option.some.injEq, reduceCtorEq] at hs; subst hs
         simp_all [DisconnectInv, disconnectCalls_snoc, disconnectPackets_snoc, Event.isDisconnect,
          Event.readsDisconnect])
      | simp at hs
  | mqtt =>
    simp only [Stream.step, streamMQTT.step] at hs
    split at hs <;> (try simp only [Option.some.injEq, reduceCtorEq] at hs) <;>
      (try (split at hs <;> simp only [Option.some.injEq, reduceCtorEq] at hs)) <;>
      subst hs <;> (try simp only [streamMQTT.switch]) <;> (repeat' split) <;>
      simp_all [DisconnectInv, disconnectCalls_snoc, disconnectPackets_snoc,
           Event.isDisconnect, Event.readsDisconnect, MqttPc.pending, MqttPc.stopping]

theorem DisconnectInv_start (σ : W) : DisconnectInv (Stream.start σ) := by
  simp [DisconnectInv, Stream.start, disconnectCalls, disconnectPackets, eventsOf,
    MainPc.disconnected, MqttPc.pending]

theorem Stream_wiring_step (E : Env W) (inn out : Conn) (h : Handler W) (t : Tid)
    (s s' : State W) (hP : s.trace.all (Stream.wiring inn out) = true)
    (hs : Stream.step E inn out h t s = some s') :
    s'.trace.all (Stream.wiring inn out) = true := by
  cases t with
  | main =>
    simp only [Stream.step, Stream.main] at hs
    split at hs <;> (try simp only [Option.some.injEq, reduceCtorEq] at hs) <;>
      (try (split at hs <;> simp only [Option.some.injEq, reduceCtorEq] at hs)) <;>
      subst hs <;> simp_all [Stream.wiring]
  | http =>
    simp only [Stream.step, streamHTTP.step] at hs
    split at hs <;> (try simp only [Option.some.injEq, reduceCtorEq] at hs) <;>
      (try (split at hs <;> simp only [Option.some.injEq, reduceCtorEq] at hs)) <;>
      subst hs <;> simp_all [Stream.wiring]
  | mqtt =>
    simp only [Stream.step, streamMQTT.step] at hs
    split at hs <;> (try simp only [Option.some.injEq, reduceCtorEq] at hs) <;>
      (try (split at hs <;> simp only [Option.some.injEq, reduceCtorEq] at hs)) <;>
      subst hs <;> simp_all [Stream.wiring]

end Counting


section Errors

theorem errors_Join_pair (e d : error) :
    errors.Join [e, d] =
      match e, d with
      | none, none => none
      | some x, none => some (.join [x])
      | none, some y => some (.join [y])
      | some x, some y => some (.join [x, y]) := by
  cases e <;> cases d <;> rfl

theorem errors_Join_eq_none (e d : error) :
    errors.Join [e, d] = none ↔ e = none ∧ d = none := by
  cases e <;> cases d <;> simp [errors_Join_pair]

theorem GoError_Contains_trans {a b c : GoError} (hab : a.Contains b) (hbc : b.Contains c) :
    a.Contains c := by
  induction hab with
  | self _ => exact hbc
  | wrap p _ ih => exact .wrap p (ih hbc)
  | join hmem _ ih => exact .join hmem (ih hbc)

theorem errors_Join_contains_left (x : GoError) (d : error) :
    ∃ y, errors.Join [some x, d] = some y ∧ y.Contains x := by
  cases d with
  | none => exact ⟨_, rfl, .join (List.mem_singleton_self x) (.self x)⟩
  | some z => exact ⟨_, rfl, .join (List.mem_cons_self x _) (.self x)⟩

theorem errors_Join_contains_right (e : error) (x : GoError) :
    ∃ y, errors.Join [e, some x] = some y ∧ y.Contains x := by
  cases e with
  | none => exact ⟨_, rfl, .join (List.mem_singleton_self x) (.self x)⟩
  | some z =>
    exact ⟨_, rfl, .join (List.mem_cons_of_mem _ (List.mem_singleton_self x)) (.self x)⟩

theorem errors_Join_nil_right (e : error) :
    errors.Join [e, none] = e.map (fun x => GoError.join [x]) ∧
    (errors.Join [e, none]).map GoError.Error = e.map GoError.Error := by
  cases e with
  | none => exact ⟨rfl, rfl⟩
  | some x => exact ⟨rfl, by simp [errors_Join_pair, GoError.Error, GoError.joinLines]⟩

theorem publishError_contains_left (err : GoError) (wErr : error) :
    (streamMQTT.publishError err wErr).Contains err := by
  cases wErr with
  | none => exact .wrap _ (.self err)
  | some w => exact .wrap _ (.join (List.mem_cons_self err _) (.self err))

theorem publishError_contains_right (err w : GoError) :
    (streamMQTT.publishError err (some w)).Contains w :=
  .wrap _ (.join (List.mem_cons_of_mem _ (List.mem_singleton_self w)) (.self w))

end Errors

section Progress

variable {W : Type} (E : Env W) (inn out : Conn) (h : Handler W)

/-- A step of the packet loop followed by steps of the others: the loop is where its step
left it. -/
theorem Stream_mqtt_step_then (a : List Tid) (ha : Tid.mqtt ∉ a) {s s' : State W}
    (hs : Stream.step E inn out h .mqtt s = some s') :
    (Stream.run E inn out h (.mqtt :: a) s).mqtt = s'.mqtt ∧
    eventsOf .mqtt (Stream.run E inn out h (.mqtt :: a) s).trace = eventsOf .mqtt s'.trace := by
  rw [Stream_run_cons, hs]
  exact Stream_run_without_mqtt E inn out h a ha s'

/-- A step of the fetch loop followed by steps of the others: the loop is where its step
left it. -/
theorem Stream_http_step_then (a : List Tid) (ha : Tid.http ∉ a) {s s' : State W}
    (hs : Stream.step E inn out h .http s = some s') :
    (Stream.run E inn out h (.http :: a) s).http = s'.http ∧
    eventsOf .http (Stream.run E inn out h (.http :: a) s).trace = eventsOf .http s'.trace := by
  rw [Stream_run_cons, hs]
  exact Stream_run_without_http E inn out h a ha s'

/-- Once a value `e` is the oldest in the channel and `Stream` waits for it, `Stream`
receives `e` at its next step, calls `h.Disconnect` at the step after, and returns
`errors.Join(e, d)`, whatever the loops do in between. -/
theorem Stream_main_returns (s : State W) (e : error) (rest : List error)
    (pre mid : List Tid) (hm : s.main = .recv) (hc : s.errs = e :: rest)
    (hpre : Tid.main ∉ pre) (hmid : Tid.main ∉ mid) :
    (Stream.run E inn out h (pre ++ .main :: mid) s).main = .disconnect e ∧
    (Stream.run E inn out h [.main] (Stream.run E inn out h (pre ++ .main :: mid) s)).main =
      .returned (errors.Join [e,
        (h.Disconnect .parent (Stream.run E inn out h (pre ++ .main :: mid) s).world).1]) ∧
    eventsOf .main
        (Stream.run E inn out h [.main] (Stream.run E inn out h (pre ++ .main :: mid) s)).trace =
      eventsOf .main s.trace ++ [.recv e, .Disconnect .parent
        (h.Disconnect .parent (Stream.run E inn out h (pre ++ .main :: mid) s).world).1] := by
  obtain ⟨p1, p2, more, p3⟩ := Stream_run_without_main E inn out h pre hpre s
  have hstep : Stream.step E inn out h .main (Stream.run E inn out h pre s) =
      some { Stream.run E inn out h pre s with
        errs := rest ++ more,
        trace := (Stream.run E inn out h pre s).trace ++ [(.main, .recv e)],
        main := .disconnect e } := by
    simp [Stream.step, Stream.main, p1, hm, p3, hc]
  have hrun : Stream.run E inn out h (pre ++ .main :: mid) s =
      Stream.run E inn out h mid { Stream.run E inn out h pre s with
        errs := rest ++ more,
        trace := (Stream.run E inn out h pre s).trace ++ [(.main, .recv e)],
        main := .disconnect e } := by
    rw [Stream_run_append, Stream_run_cons, hstep]; rfl
  obtain ⟨q1, q2, _⟩ := Stream_run_without_main E inn out h mid hmid
    { Stream.run E inn out h pre s with
        errs := rest ++ more,
        trace := (Stream.run E inn out h pre s).trace ++ [(.main, .recv e)],
        main := .disconnect e }
  rw [← hrun] at q1 q2
  simp only at q1 q2
  refine ⟨q1, ?_, ?_⟩
  · simp [Stream_run_cons, Stream_run_nil, Stream.step, Stream.main, q1]
  · simp [Stream_run_cons, Stream_run_nil, Stream.step, Stream.main, q1, eventsOf_append,
      eventsOf_single, q2, p2]

/-- A send of the packet loop that finds room in the channel. -/
theorem Stream_mqtt_send (s : State W) (v : error) (ret : Bool) (hpc : s.mqtt = .send v ret)
    (hroom : s.errs.length < errsCap) :
    Stream.run E inn out h [.mqtt] s = { s with
      errs := s.errs ++ [v], trace := s.trace ++ [(.mqtt, .send v)],
      mqtt := if ret then .done else .top } := by
  simp [Stream_run_cons, Stream_run_nil, Stream.step, streamMQTT.step, hpc, hroom]

/-- A send of the fetch loop that finds room in the channel. -/
theorem Stream_http_send (s : State W) (v : error) (hpc : s.http = .send v)
    (hroom : s.errs.length < errsCap) :
    Stream.run E inn out h [.http] s = { s with
      errs := s.errs ++ [v], trace := s.trace ++ [(.http, .send v)], http := .done } := by
  simp [Stream_run_cons, Stream_run_nil, Stream.step, streamHTTP.step, hpc, hroom]

theorem sends_snoc (t u : Tid) (tr : List (Tid × Event)) (ev : Event) :
    sends t (tr ++ [(u, ev)]) = sends t tr ++
      if u = t then (match ev with
        | .send e => [e]
        | _ => []) else [] := by
  unfold sends
  rw [eventsOf_append, eventsOf_single]
  by_cases hu : u = t
  · cases ev <;> simp [hu, List.filterMap_append, Event.sent]
  · simp [hu]

/-- The fetch loop has sent nothing before it returns and one value once it has. -/
theorem streamHTTP_sent_step (t : Tid) (s s' : State W)
    (hP : (sends .http s.trace).length = s.http.sent)
    (hs : Stream.step E inn out h t s = some s') :
    (sends .http s'.trace).length = s'.http.sent := by
  cases t with
  | main =>
    simp only [Stream.step, Stream.main] at hs
    split at hs <;> (try simp only [Option.some.injEq, reduceCtorEq] at hs) <;>
      (try (split at hs <;> simp only [Option.some.injEq, reduceCtorEq] at hs)) <;>
      subst hs <;> simp_all [sends_snoc]
  | http =>
    simp only [Stream.step, streamHTTP.step] at hs
    split at hs <;> (try simp only [Option.some.injEq, reduceCtorEq] at hs) <;>
      (try (split at hs <;> simp only [Option.some.injEq, reduceCtorEq] at hs)) <;>
      subst hs <;> (repeat' split) <;> simp_all [sends_snoc, HttpPc.sent]
  | mqtt =>
    simp only [Stream.step, streamMQTT.step] at hs
    split at hs <;> (try simp only [Option.some.injEq, reduceCtorEq] at hs) <;>
      (try (split at hs <;> simp only [Option.some.injEq, reduceCtorEq] at hs)) <;>
      subst hs <;> simp_all [sends_snoc]

/-- The operations of `Stream` itself are those of the place it stands at. -/
theorem MainInv_step (t : Tid) (s s' : State W)
    (hP : MainInv s.main (eventsOf .main s.trace))
    (hs : Stream.step E inn out h t s = some s') :
    MainInv s'.main (eventsOf .main s'.trace) := by
  cases t with
  | main =>
    simp only [Stream.step, Stream.main] at hs
    split at hs <;> (try simp only [Option.some.injEq, reduceCtorEq] at hs) <;>
      (try (split at hs <;> simp only [Option.some.injEq, reduceCtorEq] at hs)) <;>
      subst hs <;> simp_all [MainInv, eventsOf_append, eventsOf_single]
    exact ⟨_, _, ⟨rfl, rfl⟩, rfl⟩
  | http =>
    obtain ⟨_, h2, ⟨ev, h3⟩, _⟩ := streamHTTP_step_frame E inn out h hs
    simpa [h2, h3, eventsOf_append, eventsOf_single] using hP
  | mqtt =>
    obtain ⟨_, h2, ⟨ev, h3⟩, _⟩ := streamMQTT_step_frame E out inn h hs
    simpa [h2, h3, eventsOf_append, eventsOf_single] using hP

/-- The channel is first in, first out: the values sent are the values `Stream` received
followed by the content of the channel. -/
theorem allSent_step (t : Tid) (s s' : State W)
    (hP : allSent s.trace = (eventsOf .main s.trace).filterMap Event.received ++ s.errs)
    (hs : Stream.step E inn out h t s = some s') :
    allSent s'.trace = (eventsOf .main s'.trace).filterMap Event.received ++ s'.errs := by
  cases t with
  | main =>
    simp only [Stream.step, Stream.main] at hs
    split at hs <;> (try simp only [Option.some.injEq, reduceCtorEq] at hs) <;>
      (try (split at hs <;> simp only [Option.some.injEq, reduceCtorEq] at hs)) <;>
      subst hs <;>
      simp_all [allSent, eventsOf_append, eventsOf_single, List.filterMap_append, Event.sent,
        Event.received]
  | http =>
    simp only [Stream.step, streamHTTP.step] at hs
    split at hs <;> (try simp only [Option.some.injEq, reduceCtorEq] at hs) <;>
      (try (split at hs <;> simp only [Option.some.injEq, reduceCtorEq] at hs)) <;>
      subst hs <;>
      simp_all [allSent, eventsOf_append, eventsOf_single, List.filterMap_append, Event.sent,
        Event.received]
  | mqtt =>
    simp only [Stream.step, streamMQTT.step] at hs
    split at hs <;> (try simp only [Option.some.injEq, reduceCtorEq] at hs) <;>
      (try (split at hs <;> simp only [Option.some.injEq, reduceCtorEq] at hs)) <;>
      subst hs <;>
      simp_all [allSent, eventsOf_append, eventsOf_single, List.filterMap_append, Event.sent,
        Event.received]

/-- When neither `Stream` nor the fetch loop has sent, the values sent are those of the
packet loop. -/
theorem allSent_eq_mqtt (tr : List (Tid × Event)) (h1 : sends .main tr = [])
    (h2 : sends .http tr = []) : allSent tr = sends .mqtt tr := by
  induction tr with
  | nil => rfl
  | cons x tr ih =>
    obtain ⟨t, ev⟩ := x
    cases t <;> cases hsent : ev.sent <;>
      simp_all [allSent, sends, eventsOf, List.filterMap_cons]

end Progress

section OkInv
variable {W : Type} (E : Env W) (inn out : Conn) (h : Handler W)

theorem packetRead_snoc (evs : List Event) (ev : Event) :
    (evs ++ [ev]).filterMap Event.packetRead = evs.filterMap Event.packetRead ++
      (match ev with
        | .ReadPacket _ (.ok p) => [p]
        | _ => []) := by
  cases ev
  case ReadPacket r res => cases res <;> simp [List.filterMap_append, Event.packetRead]
  all_goals simp [List.filterMap_append, Event.packetRead]

theorem packetWritten_snoc (evs : List Event) (ev : Event) :
    (evs ++ [ev]).filterMap Event.packetWritten = evs.filterMap Event.packetWritten ++
      (match ev with
        | .PacketWrite p w _ => [(p, w)]
        | _ => []) := by
  cases ev <;> simp [List.filterMap_append, Event.packetWritten]

theorem call_snoc (evs : List Event) (ev : Event) :
    (evs ++ [ev]).filterMap Event.call = evs.filterMap Event.call ++
      (match ev with
        | .Connect _ _ => [.Connect]
        | .Publish _ topic payload _ _ => [.Publish topic payload]
        | .Disconnect _ _ => [.Disconnect]
        | _ => []) := by
  cases ev <;> simp [List.filterMap_append, Event.call]

theorem left_snoc (evs : List Event) (ev : Event) :
    (evs ++ [ev]).filterMap Event.left = evs.filterMap Event.left ++
      (match ev with
        | .Publish _ _ _ _ b => [b]
        | _ => []) := by
  cases ev <;> simp [List.filterMap_append, Event.left]

theorem sent_snoc (evs : List Event) (ev : Event) :
    (evs ++ [ev]).filterMap Event.sent = evs.filterMap Event.sent ++
      (match ev with
        | .send e => [e]
        | _ => []) := by
  cases ev <;> simp [List.filterMap_append, Event.sent]

theorem ok_snoc (evs : List Event) (ev : Event) :
    ((evs ++ [ev]).all Event.ok = true) ↔ (evs.all Event.ok = true ∧ ev.ok = true) := by
  simp [List.all_append]

theorem MqttOkInv_step (t : Tid) (s s' : State W)
    (hP : MqttOkInv inn s.mqtt (eventsOf .mqtt s.trace))
    (hs : Stream.step E inn out h t s = some s') :
    MqttOkInv inn s'.mqtt (eventsOf .mqtt s'.trace) := by
  cases t with
  | main =>
    obtain ⟨_, h2, ev, h3⟩ := Stream_main_frame hs
    simpa [h2, h3, eventsOf_append, eventsOf_single] using hP
  | http =>
    obtain ⟨h2, _, ⟨ev, h3⟩, _⟩ := streamHTTP_step_frame E inn out h hs
    simpa [h2, h3, eventsOf_append, eventsOf_single] using hP
  | mqtt =>
    simp only [Stream.step, streamMQTT.step] at hs
    cases hpc : s.mqtt with
    | top =>
      simp only [hpc, Option.some.injEq] at hs hP; subst hs
      intro hok
      simp only [eventsOf_append, eventsOf_single, if_true, ok_snoc] at hok ⊢
      obtain ⟨hok, hev⟩ := hok
      obtain ⟨q1, q2, q3, q4, q5, q6⟩ := hP hok
      rcases hres : (E.Done .mqtt s.world).1 with _ | err
      · simp only [packetRead_snoc, packetWritten_snoc, call_snoc, sent_snoc, left_snoc]
        simp_all [MqttPc.okPlace, MqttPc.inHand, MqttPc.uncalled, MqttPc.sentOk,
          MqttPc.handled]
        assumption
      · simp [hres, Event.ok] at hev
    | read =>
      simp only [hpc, Option.some.injEq] at hs hP; subst hs
      intro hok
      simp only [eventsOf_append, eventsOf_single, if_true, ok_snoc] at hok ⊢
      obtain ⟨hok, hev⟩ := hok
      obtain ⟨q1, q2, q3, q4, q5, q6⟩ := hP hok
      rcases hres : (E.ReadPacket out s.world).1 with err | pkt
      · simp [hres, Event.ok] at hev
      · simp only [packetRead_snoc, packetWritten_snoc, call_snoc, sent_snoc, left_snoc]
        cases pkt <;>
          simp_all [MqttPc.okPlace, MqttPc.inHand, MqttPc.uncalled, MqttPc.sentOk,
            MqttPc.handled, streamMQTT.switch, Call.ofPacket, List.filterMap_append,
            ControlPacket.payload] <;>
          assumption
    | publish pkt topics payload =>
      simp only [hpc, Option.some.injEq] at hs hP; subst hs
      intro hok
      simp only [eventsOf_append, eventsOf_single, if_true, ok_snoc] at hok ⊢
      obtain ⟨hok, hev⟩ := hok
      obtain ⟨q1, q2, q3, q4, q5, q6⟩ := hP hok
      rcases hres : (h.Publish .mqtt topics payload s.world).1.1 with _ | err
      · simp only [packetRead_snoc, packetWritten_snoc, call_snoc, sent_snoc, left_snoc]
        simp only [MqttPc.okPlace] at q1
        subst q1
        simp_all [MqttPc.okPlace, MqttPc.inHand, MqttPc.uncalled, MqttPc.sentOk,
            MqttPc.handled, Call.ofPacket, List.filterMap_append, ControlPacket.payload,
            ControlPacket.withPayload, ControlPacket.erase]
        assumption
      · simp [hres, Event.ok] at hev
    | pubFail err =>
      simp only [hpc, Option.some.injEq] at hs hP; subst hs
      intro hok
      simp only [eventsOf_append, eventsOf_single, if_true, ok_snoc] at hok ⊢
      exact absurd (hP hok.1).1 (by simp [MqttPc.okPlace])
    | connect pkt =>
      simp only [hpc, Option.some.injEq] at hs hP; subst hs
      intro hok
      simp only [eventsOf_append, eventsOf_single, if_true, ok_snoc] at hok ⊢
      obtain ⟨hok, hev⟩ := hok
      obtain ⟨q1, q2, q3, q4, q5, q6⟩ := hP hok
      rcases hres : (h.Connect .mqtt s.world).1 with _ | err
      · simp only [packetRead_snoc, packetWritten_snoc, call_snoc, sent_snoc, left_snoc]
        simp only [MqttPc.okPlace] at q1
        subst q1
        simp_all [MqttPc.okPlace, MqttPc.inHand, MqttPc.uncalled, MqttPc.sentOk,
            MqttPc.handled, Call.ofPacket, List.filterMap_append, ControlPacket.payload]
        assumption
      · simp [hres, Event.ok] at hev
    | disconnect =>
      simp only [hpc, Option.some.injEq] at hs hP; subst hs
      intro hok
      simp only [eventsOf_append, eventsOf_single, if_true, ok_snoc] at hok ⊢
      obtain ⟨hok, hev⟩ := hok
      obtain ⟨q1, q2, q3, q4, q5, q6⟩ := hP hok
      rcases hres : (h.Disconnect .mqtt s.world).1 with _ | err
      · simp only [packetRead_snoc, packetWritten_snoc, call_snoc, sent_snoc, left_snoc]
        simp_all [MqttPc.okPlace, MqttPc.inHand, MqttPc.uncalled, MqttPc.sentOk,
            MqttPc.handled, Call.ofPacket, List.filterMap_append]
        assumption
      · simp [hres, Event.ok] at hev
    | relay pkt =>
      simp only [hpc, Option.some.injEq] at hs hP; subst hs
      intro hok
      simp only [eventsOf_append, eventsOf_single, if_true, ok_snoc] at hok ⊢
      obtain ⟨hok, hev⟩ := hok
      obtain ⟨q1, q2, q3, q4, q5, q6⟩ := hP hok
      rcases hres : (E.PacketWrite pkt inn s.world).1 with _ | err
      · simp only [packetRead_snoc, packetWritten_snoc, call_snoc, sent_snoc, left_snoc]
        simp only [MqttPc.okPlace] at q1
        simp_all [MqttPc.okPlace, MqttPc.inHand, MqttPc.uncalled, MqttPc.sentOk,
            MqttPc.handled, Call.ofPacket, List.filterMap_append]
        rintro a b (⟨x, hx, hw⟩ | ⟨rfl, rfl⟩)
        · exact q2 a b x hx hw
        · exact ⟨q1, rfl⟩
      · simp [hres, Event.ok] at hev
    | send e ret =>
      simp only [hpc] at hs hP
      split at hs
      · simp only [Option.some.injEq] at hs; subst hs
        intro hok
        simp only [eventsOf_append, eventsOf_single, if_true, ok_snoc] at hok ⊢
        obtain ⟨hok, hev⟩ := hok
        obtain ⟨q1, q2, q3, q4, q5, q6⟩ := hP hok
        simp only [MqttPc.okPlace] at q1
        obtain ⟨rfl, rfl⟩ := q1
        simp only [packetRead_snoc, packetWritten_snoc, call_snoc, sent_snoc, left_snoc]
        simp_all [MqttPc.okPlace, MqttPc.inHand, MqttPc.uncalled, MqttPc.sentOk,
            MqttPc.handled, Call.ofPacket, List.filterMap_append]
        assumption
      · simp at hs
    | done => simp [hpc] at hs
end OkInv

section Sessions

variable {W : Type} (E : Env W) (inn out : Conn) (h : Handler W)

theorem MainInv_holds (sched : List Tid) (σ : W) :
    MainInv (Stream E inn out h sched σ).main
      (eventsOf .main (Stream E inn out h sched σ).trace) :=
  Stream_run_invariant E inn out h (fun s => MainInv s.main (eventsOf .main s.trace))
    (MainInv_step E inn out h) sched _ rfl

theorem allSent_holds (sched : List Tid) (σ : W) :
    allSent (Stream E inn out h sched σ).trace =
      (eventsOf .main (Stream E inn out h sched σ).trace).filterMap Event.received ++
        (Stream E inn out h sched σ).errs :=
  Stream_run_invariant E inn out h
    (fun s => allSent s.trace = (eventsOf .main s.trace).filterMap Event.received ++ s.errs)
    (allSent_step E inn out h) sched _ rfl

theorem MqttOkInv_holds (sched : List Tid) (σ : W) :
    MqttOkInv inn (Stream E inn out h sched σ).mqtt
      (eventsOf .mqtt (Stream E inn out h sched σ).trace) :=
  Stream_run_invariant E inn out h (fun s => MqttOkInv inn s.mqtt (eventsOf .mqtt s.trace))
    (MqttOkInv_step E inn out h) sched _
    (by intro _; simp [Stream.start, eventsOf, MqttPc.okPlace, MqttPc.inHand, MqttPc.uncalled,
          MqttPc.sentOk, MqttPc.handled])

/-- The caller never sends on the channel. -/
theorem MainInv_sends {pc : MainPc} {evs : List Event} (hinv : MainInv pc evs) :
    evs.filterMap Event.sent = [] := by
  cases pc with
  | recv => simp only [MainInv] at hinv; subst hinv; rfl
  | disconnect e => simp only [MainInv] at hinv; subst hinv; rfl
  | returned r =>
    obtain ⟨e, d, hev, _⟩ := hinv
    subst hev; rfl

theorem map_fst_pair {α β : Type} (w : β) (l : List (α × β)) (hw : ∀ x ∈ l, x.2 = w) :
    l = (l.map Prod.fst).map (fun p => (p, w)) := by
  induction l with
  | nil => rfl
  | cons x l ih =>
    have hx : x.2 = w := hw x (List.mem_cons_self _ _)
    have hl : ∀ y ∈ l, y.2 = w := fun y hy => hw y (List.mem_cons_of_mem _ hy)
    obtain ⟨a, b⟩ := x
    simp only at hx
    subst hx
    simp only [List.map_cons, List.cons.injEq, true_and]
    exact ih hl

theorem erase_eq_Disconnect {p : ControlPacket} (hp : p.erase = .Disconnect) :
    p = .Disconnect := by
  cases p <;> simp_all [ControlPacket.erase, ControlPacket.withPayload]

/-- A list whose image ends in `b` ends in an element of image `b`. -/
theorem map_eq_snoc {α β : Type} {f : α → β} {l : List α} {a : List β} {b : β}
    (hm : l.map f = a ++ [b]) : ∃ ps x, l = ps ++ [x] ∧ ps.map f = a ∧ f x = b := by
  obtain ⟨l1, l2, rfl, h1, h2⟩ := List.map_eq_append_iff.1 hm
  cases l2 with
  | nil => simp at h2
  | cons x l2 =>
    cases l2 with
    | nil =>
      simp only [List.map_cons, List.map_nil, List.cons.injEq, and_true] at h2
      exact ⟨l1, x, rfl, h1, h2⟩
    | cons y l2 => simp at h2

/-- Two lists of packets that agree up to the payloads and on the payloads are equal. -/
theorem eq_of_erase_payload (a : List ControlPacket) :
    ∀ b : List ControlPacket, a.map ControlPacket.erase = b.map ControlPacket.erase →
      a.filterMap ControlPacket.payload = b.filterMap ControlPacket.payload → a = b := by
  induction a with
  | nil =>
    intro b h1 _
    cases b with
    | nil => rfl
    | cons y b => simp at h1
  | cons x a ih =>
    intro b h1 h2
    cases b with
    | nil => simp at h1
    | cons y b =>
      simp only [List.map_cons, List.cons.injEq] at h1
      obtain ⟨hxy, hab⟩ := h1
      have key : x = y ∧
          a.filterMap ControlPacket.payload = b.filterMap ControlPacket.payload := by
        cases x <;> cases y <;>
          simp [ControlPacket.erase, ControlPacket.withPayload, ControlPacket.payload,
            List.filterMap_cons] at hxy h2 ⊢ <;>
          first
            | exact h2
            | exact ⟨⟨hxy, h2.1⟩, h2.2⟩
            | exact ⟨hxy, h2⟩
      rw [key.1, ih b hab key.2]

end Sessions

section Room

variable {W : Type} (E : Env W) (inn out : Conn) (h : Handler W)

theorem expiries_snoc (t u : Tid) (tr : List (Tid × Event)) (ev : Event) :
    expiries t (tr ++ [(u, ev)]) =
      expiries t tr + if u = t then (if ev.expired then 1 else 0) else 0 := by
  unfold expiries
  rw [eventsOf_append, eventsOf_single]
  by_cases hu : u = t <;> by_cases he : ev.expired <;>
    simp [hu, he, List.countP_append, List.countP_cons]

/-- The packet loop sends once when it returns and once more for every poll that found its
context done. -/
theorem mqtt_sends_step (t : Tid) (s s' : State W)
    (hP : (sends .mqtt s.trace).length + s.mqtt.resending ≤
      expiries .mqtt s.trace + s.mqtt.returned)
    (hs : Stream.step E inn out h t s = some s') :
    (sends .mqtt s'.trace).length + s'.mqtt.resending ≤
      expiries .mqtt s'.trace + s'.mqtt.returned := by
  cases t with
  | main =>
    simp only [Stream.step, Stream.main] at hs
    split at hs <;> (try simp only [Option.some.injEq, reduceCtorEq] at hs) <;>
      (try (split at hs <;> simp only [Option.some.injEq, reduceCtorEq] at hs)) <;>
      subst hs <;> simp_all [sends_snoc, expiries_snoc]
  | http =>
    simp only [Stream.step, streamHTTP.step] at hs
    split at hs <;> (try simp only [Option.some.injEq, reduceCtorEq] at hs) <;>
      (try (split at hs <;> simp only [Option.some.injEq, reduceCtorEq] at hs)) <;>
      subst hs <;> simp_all [sends_snoc, expiries_snoc]
  | mqtt =>
    simp only [Stream.step, streamMQTT.step] at hs
    split at hs <;> (try simp only [Option.some.injEq, reduceCtorEq] at hs) <;>
      (try (split at hs <;> simp only [Option.some.injEq, reduceCtorEq] at hs)) <;>
      subst hs <;> (try simp only [streamMQTT.switch]) <;> (repeat' split) <;>
      simp_all [sends_snoc, expiries_snoc, Event.expired, MqttPc.resending,
        MqttPc.returned]

theorem allSent_length (tr : List (Tid × Event)) :
    (allSent tr).length =
      (sends .main tr).length + (sends .http tr).length + (sends .mqtt tr).length := by
  induction tr with
  | nil => rfl
  | cons x tr ih =>
    obtain ⟨t, ev⟩ := x
    cases t <;> cases hsent : ev.sent <;>
      simp_all [allSent, sends, eventsOf, List.filterMap_cons] <;> omega

/-- In a session in which no poll of the packet loop has found its context done, a loop
that is about to send finds room in the channel. -/
theorem Stream_send_has_room (sched : List Tid) (σ : W)
    (hexp : expiries .mqtt (Stream E inn out h sched σ).trace = 0) :
    (∀ v, (Stream E inn out h sched σ).http = .send v →
      (Stream E inn out h sched σ).errs.length < errsCap) ∧
    (∀ v ret, (Stream E inn out h sched σ).mqtt = .send v ret →
      (Stream E inn out h sched σ).errs.length < errsCap) := by
  have hmain := MainInv_sends (MainInv_holds E inn out h sched σ)
  have hfifo := congrArg List.length (allSent_holds E inn out h sched σ)
  have hhttp : (sends .http (Stream E inn out h sched σ).trace).length =
      (Stream E inn out h sched σ).http.sent :=
    Stream_run_invariant E inn out h
      (fun s => (sends .http s.trace).length = s.http.sent)
      (streamHTTP_sent_step E inn out h) sched (Stream.start σ) rfl
  have hmqtt : (sends .mqtt (Stream E inn out h sched σ).trace).length +
      (Stream E inn out h sched σ).mqtt.resending ≤
        expiries .mqtt (Stream E inn out h sched σ).trace +
          (Stream E inn out h sched σ).mqtt.returned :=
    Stream_run_invariant E inn out h
      (fun s => (sends .mqtt s.trace).length + s.mqtt.resending ≤
        expiries .mqtt s.trace + s.mqtt.returned)
      (mqtt_sends_step E inn out h) sched (Stream.start σ)
      (by simp [Stream.start, sends, eventsOf, expiries, MqttPc.resending, MqttPc.returned])
  have hlen := allSent_length (Stream E inn out h sched σ).trace
  have hmain0 : (sends .main (Stream E inn out h sched σ).trace).length = 0 := by
    unfold sends; rw [hmain]; rfl
  rw [List.length_append] at hfifo
  rw [hexp] at hmqtt
  have hsent : (Stream E inn out h sched σ).http.sent ≤ 1 := by
    cases (Stream E inn out h sched σ).http <;> simp [HttpPc.sent]
  have hret : (Stream E inn out h sched σ).mqtt.returned ≤ 1 := by
    cases (Stream E inn out h sched σ).mqtt <;> simp [MqttPc.returned]
  refine ⟨?_, ?_⟩
  · intro v hv
    rw [hv] at hhttp
    simp only [HttpPc.sent] at hhttp
    unfold errsCap
    omega
  · intro v ret hv
    rw [hv] at hmqtt
    simp only [MqttPc.returned] at hmqtt
    unfold errsCap
    omega

end Room

section Scripted

theorem Sim_run_done (n : Nat) (s : State Sim) (hpc : s.mqtt = .done) :
    Stream.run Sim.env connIn connOut Sim.handler (List.replicate n .mqtt) s = s := by
  induction n with
  | zero => rfl
  | succ n ih =>
    rw [List.replicate_succ, Stream_run_cons]
    simp [Stream.step, streamMQTT.step, hpc, ih]

theorem all_ok_snoc (tr : List (Tid × Event)) (new : List (Tid × Event))
    (hnew : (eventsOf .mqtt new).all Event.ok = true)
    (hold : (eventsOf .mqtt tr).all Event.ok = true) :
    (eventsOf .mqtt (tr ++ new)).all Event.ok = true := by
  rw [eventsOf_append, List.all_append, hold, hnew]; rfl

/-- One iteration of the packet loop in the scripted world, on a packet that is not a
Disconnect packet: three or four steps, all successful. -/
theorem Sim_iteration (p : ControlPacket) (rest : List ControlPacket) (k : Nat)
    (hp : p ≠ .Disconnect) (s : State Sim) (hpc : s.mqtt = .top)
    (hpk : s.world.packets = p :: rest) (hl : s.world.mqttLife = k + 1)
    (hh : s.world.Healthy) :
    ∃ (j : Nat) (s1 : State Sim) (evs : List Event), j ≤ 4 ∧
      Stream.run Sim.env connIn connOut Sim.handler (List.replicate j .mqtt) s = s1 ∧
      s1.mqtt = .top ∧ s1.world.packets = rest ∧ s1.world.mqttLife = k ∧
      s1.world.Healthy ∧ s1.errs = s.errs ∧
      eventsOf .mqtt s1.trace = eventsOf .mqtt s.trace ++ evs ∧
      evs.all Event.ok = true ∧ evs.filterMap Event.packetRead = [p] := by
  obtain ⟨h1, h2, h3, h4⟩ := hh
  cases p with
  | Disconnect => exact absurd rfl hp
  | Connect =>
    refine ⟨4, _, [.Done .mqtt none, .ReadPacket connOut (.ok .Connect), .Connect .mqtt none,
      .PacketWrite .Connect connIn none], le_refl _, rfl, ?_, ?_, ?_, ?_, ?_, ?_, rfl, rfl⟩ <;>
    simp [List.replicate, Stream_run_cons, Stream_run_nil, Stream.step, streamMQTT.step,
      streamMQTT.switch, Sim.env, Sim.handler, Sim.Healthy, hpc, hpk, hl, h1, h2, h3, h4,
      eventsOf_append, eventsOf_single, eventsOf, ControlPacket.withPayload]
  | Publish topic payload =>
    refine ⟨4, _, [.Done .mqtt none, .ReadPacket connOut (.ok (.Publish topic payload)),
      .Publish .mqtt topic payload none (s.world.publishLeaves.getD payload),
      .PacketWrite (.Publish topic (s.world.publishLeaves.getD payload)) connIn none],
      le_refl _, rfl, ?_, ?_, ?_, ?_, ?_, ?_, rfl, rfl⟩ <;>
    simp [List.replicate, Stream_run_cons, Stream_run_nil, Stream.step, streamMQTT.step,
      streamMQTT.switch, Sim.env, Sim.handler, Sim.Healthy, hpc, hpk, hl, h1, h2, h3, h4,
      eventsOf_append, eventsOf_single, eventsOf, ControlPacket.withPayload]
  | Other raw =>
    refine ⟨3, _, [.Done .mqtt none, .ReadPacket connOut (.ok (.Other raw)),
      .PacketWrite (.Other raw) connIn none], by omega, rfl, ?_, ?_, ?_, ?_, ?_, ?_, rfl,
      rfl⟩ <;>
    simp [List.replicate, Stream_run_cons, Stream_run_nil, Stream.step, streamMQTT.step,
      streamMQTT.switch, Sim.env, Sim.handler, Sim.Healthy, hpc, hpk, hl, h1, h2, h3, h4,
      eventsOf_append, eventsOf_single, eventsOf, ControlPacket.withPayload]

/-- The last iteration of the packet loop in the scripted world, on a Disconnect packet:
four steps, all successful, and the loop has returned. -/
theorem Sim_last_iteration (rest : List ControlPacket) (k : Nat) (s : State Sim)
    (hpc : s.mqtt = .top) (hpk : s.world.packets = .Disconnect :: rest)
    (hl : s.world.mqttLife = k + 1) (hh : s.world.Healthy)
    (hroom : s.errs.length < errsCap) :
    ∃ (s1 : State Sim) (evs : List Event),
      Stream.run Sim.env connIn connOut Sim.handler (List.replicate 4 .mqtt) s = s1 ∧
      s1.mqtt = .done ∧
      eventsOf .mqtt s1.trace = eventsOf .mqtt s.trace ++ evs ∧
      evs.all Event.ok = true ∧ evs.filterMap Event.packetRead = [.Disconnect] := by
  obtain ⟨h1, h2, h3, h4⟩ := hh
  refine ⟨_, [.Done .mqtt none, .ReadPacket connOut (.ok .Disconnect), .Disconnect .mqtt none,
      .send none], rfl, ?_, ?_, rfl, rfl⟩ <;>
  simp [List.replicate, Stream_run_cons, Stream_run_nil, Stream.step, streamMQTT.step,
      streamMQTT.switch, Sim.env, Sim.handler, hpc, hpk, hl, h1, h2, h3, h4, hroom,
      eventsOf_append, eventsOf_single, eventsOf]

/-- In the scripted world with no failure, the packet loop that finds the packets `ps`,
none of them a Disconnect packet, and then a Disconnect packet, returns within four steps
per packet, with all its operations successful and exactly these packets read. -/
theorem Sim_packet_loop_returns (later : List ControlPacket) (ps : List ControlPacket) :
    ControlPacket.Disconnect ∉ ps → ∀ (s : State Sim) (n : Nat), s.mqtt = .top →
      s.world.packets = ps ++ .Disconnect :: later → ps.length < s.world.mqttLife →
      s.world.Healthy → s.errs.length < errsCap → 4 * ps.length + 4 ≤ n →
      ∃ evs : List Event,
        (Stream.run Sim.env connIn connOut Sim.handler (List.replicate n .mqtt) s).mqtt
          = .done ∧
        eventsOf .mqtt
            (Stream.run Sim.env connIn connOut Sim.handler (List.replicate n .mqtt) s).trace =
          eventsOf .mqtt s.trace ++ evs ∧
        evs.all Event.ok = true ∧
        evs.filterMap Event.packetRead = ps ++ [.Disconnect] := by
  induction ps with
  | nil =>
    intro _ s n hpc hpk hl hh hroom hn
    obtain ⟨k, hk⟩ : ∃ k, s.world.mqttLife = k + 1 := ⟨s.world.mqttLife - 1, by
      simp only [List.length_nil] at hl; omega⟩
    obtain ⟨s1, evs, hrun, hdone, hev, hok, hrd⟩ :=
      Sim_last_iteration later k s hpc hpk hk hh hroom
    obtain ⟨m, rfl⟩ : ∃ m, n = 4 + m := ⟨n - 4, by omega⟩
    rw [List.replicate_add, Stream_run_append, hrun, Sim_run_done m s1 hdone]
    exact ⟨evs, hdone, hev, hok, hrd⟩
  | cons p ps ih =>
    intro hmem s n hpc hpk hl hh hroom hn
    have hp : p ≠ .Disconnect := fun e => hmem (e ▸ List.mem_cons_self _ _)
    have hps : ControlPacket.Disconnect ∉ ps := fun e => hmem (List.mem_cons_of_mem _ e)
    simp only [List.length_cons] at hl hn
    obtain ⟨k, hk⟩ : ∃ k, s.world.mqttLife = k + 1 := ⟨s.world.mqttLife - 1, by omega⟩
    obtain ⟨j, s1, evs1, hj, hrun, hpc1, hpk1, hl1, hh1, herrs1, hev1, hok1, hrd1⟩ :=
      Sim_iteration p (ps ++ .Disconnect :: later) k hp s hpc hpk hk hh
    obtain ⟨m, rfl⟩ : ∃ m, n = j + m := ⟨n - j, by omega⟩
    obtain ⟨evs2, hdone, hev2, hok2, hrd2⟩ := ih hps s1 m hpc1 hpk1 (by omega) hh1
      (by rw [herrs1]; exact hroom) (by omega)
    rw [List.replicate_add, Stream_run_append, hrun]
    refine ⟨evs1 ++ evs2, hdone, ?_, ?_, ?_⟩
    · rw [hev2, hev1, List.append_assoc]
    · rw [List.all_append, hok1, hok2]; rfl
    · rw [List.filterMap_append, hrd1, hrd2]; rfl

end Scripted

section Stuck

/-- A stuck fetch loop stays stuck: `Stream` has returned, the send of the fetch loop finds
the channel full, and the packet loop can only poll its done context and come to a send
that finds the channel full as well. -/
theorem Sim_Stuck_step (t : Tid) (s s' : State Sim) (hP : Sim.Stuck s)
    (hs : Stream.step Sim.env connIn connOut Sim.handler t s = some s') : Sim.Stuck s' := by
  obtain ⟨p1, p2, p3, p4, p5, p6⟩ := hP
  cases t with
  | main =>
    simp only [Stream.step, Stream.main] at hs
    cases hm : s.main with
    | recv => simp [hm, MainPc.disconnected] at p4
    | disconnect e => simp [hm, MainPc.disconnected] at p4
    | returned r => simp [hm] at hs
  | http =>
    simp [Stream.step, streamHTTP.step, p1, p3] at hs
  | mqtt =>
    rcases p6 with p6 | p6
    · simp only [Stream.step, streamMQTT.step, p6, Sim.env, p5, Option.some.injEq] at hs
      subst hs
      refine ⟨p1, ?_, p3, p4, p5, Or.inr rfl⟩
      simp [sends_snoc, p2]
    · simp [Stream.step, streamMQTT.step, p6, p3] at hs

end Stuck
/-! ## The claims -/

section Claims

variable {W : Type}

/-- C1, as the code has it: by the time `Stream` returns, `Stream` itself has called
`h.Disconnect` exactly once and the fetch loop never; the packet loop has called it once
for the Disconnect packet it read (it reads at most one), unless that call is still
pending; so the total is one or two, and it is two when the packet loop ended on a
Disconnect packet. -/
theorem Stream_disconnect_calls (E : Env W) (inn out : Conn) (h : Handler W)
    (sched : List Tid) (σ : W) (r : error)
    (hret : (Stream E inn out h sched σ).main = .returned r) :
    disconnectCalls .main (Stream E inn out h sched σ).trace = 1 ∧
    disconnectCalls .http (Stream E inn out h sched σ).trace = 0 ∧
    disconnectCalls .mqtt (Stream E inn out h sched σ).trace +
        (Stream E inn out h sched σ).mqtt.pending =
      disconnectPackets (Stream E inn out h sched σ).trace ∧
    disconnectPackets (Stream E inn out h sched σ).trace ≤ 1 := by
  have hinv : DisconnectInv (Stream E inn out h sched σ) :=
    Stream_run_invariant E inn out h DisconnectInv (DisconnectInv_step E inn out h) sched _
      (DisconnectInv_start σ)
  obtain ⟨p1, p2, p3, p4, _⟩ := hinv
  rw [hret] at p1
  exact ⟨p1, p2, p3, p4⟩

/-- C1, a session that returns: the packet loop reads Connect, Publish and Disconnect, and
`Stream` receives its report. -/
theorem Stream_disconnect_calls_witness :
    (Sim.session (List.replicate 12 .mqtt ++ [.main, .main])
      (Sim.ok [.Connect, .Publish "sensors/temp" [1, 2], .Disconnect] [] 9)).main
      = .returned none ∧
    disconnectCalls .main (Sim.session (List.replicate 12 .mqtt ++ [.main, .main])
      (Sim.ok [.Connect, .Publish "sensors/temp" [1, 2], .Disconnect] [] 9)).trace = 1 :=
  ⟨rfl, (Stream_disconnect_calls Sim.env connIn connOut Sim.handler
    (List.replicate 12 Tid.mqtt ++ [Tid.main, Tid.main])
    (Sim.ok [.Connect, .Publish "sensors/temp" [1, 2], .Disconnect] [] 9) none rfl).1⟩

/-- C1 fails as stated: when the packet loop ends on a Disconnect packet and `Stream`
receives its report, `h.Disconnect` has been called twice by the time `Stream` returns. -/
theorem Stream_disconnect_twice :
    (Sim.session [.mqtt, .mqtt, .mqtt, .mqtt, .main, .main]
      (Sim.ok [.Disconnect] [] 9)).main = .returned none ∧
    disconnectCalls .mqtt (Sim.session [.mqtt, .mqtt, .mqtt, .mqtt, .main, .main]
      (Sim.ok [.Disconnect] [] 9)).trace = 1 ∧
    disconnectCalls .main (Sim.session [.mqtt, .mqtt, .mqtt, .mqtt, .main, .main]
      (Sim.ok [.Disconnect] [] 9)).trace = 1 ∧
    ((Sim.session [.mqtt, .mqtt, .mqtt, .mqtt, .main, .main]
      (Sim.ok [.Disconnect] [] 9)).trace.map Prod.snd).countP Event.isDisconnect = 2 ∧
    (Sim.session [.mqtt, .mqtt, .mqtt, .mqtt, .main, .main]
      (Sim.ok [.Disconnect] [] 9)).trace.map Prod.snd =
      [.Done .mqtt none, .ReadPacket connOut (.ok .Disconnect), .Disconnect .mqtt none,
        .send none, .recv none, .Disconnect .parent none] := by
  refine ⟨rfl, by decide, by decide, by decide, rfl⟩

/-- C2, as the code has it: once a first loop result `e` is the oldest value in the channel
and `Stream` waits for it, `Stream` returns `errors.Join(e, d)`, `d` being the result of its
call of `h.Disconnect`: the result is nil exactly when `e` and `d` are nil and it contains
each of them that is not nil; when `d` is nil the result is nil for a nil `e` and otherwise
the join whose only member is `e`, with the message of `e`. -/
theorem Stream_returns_join (E : Env W) (inn out : Conn) (h : Handler W) (s : State W)
    (e : error) (rest : List error) (pre mid : List Tid)
    (hm : s.main = .recv) (hc : s.errs = e :: rest)
    (hpre : Tid.main ∉ pre) (hmid : Tid.main ∉ mid)
    (s1 : State W) (hs1 : s1 = Stream.run E inn out h (pre ++ .main :: mid) s)
    (d : error) (hd : d = (h.Disconnect .parent s1.world).1) :
    (Stream.run E inn out h [.main] s1).main = .returned (errors.Join [e, d]) ∧
    eventsOf .main (Stream.run E inn out h [.main] s1).trace =
      eventsOf .main s.trace ++ [.recv e, .Disconnect .parent d] ∧
    (errors.Join [e, d] = none ↔ e = none ∧ d = none) ∧
    (∀ x, e = some x → ∃ y, errors.Join [e, d] = some y ∧ y.Contains x) ∧
    (∀ x, d = some x → ∃ y, errors.Join [e, d] = some y ∧ y.Contains x) ∧
    (d = none → errors.Join [e, d] = e.map (fun x => GoError.join [x]) ∧
      (errors.Join [e, d]).map GoError.Error = e.map GoError.Error) := by
  subst hs1 hd
  obtain ⟨_, p2, p3⟩ := Stream_main_returns E inn out h s e rest pre mid hm hc hpre hmid
  refine ⟨p2, p3, errors_Join_eq_none _ _, ?_, ?_, ?_⟩
  · intro x hx; subst hx; exact errors_Join_contains_left x _
  · intro x hx; rw [hx]; exact errors_Join_contains_right e x
  · intro hd; rw [hd]; exact errors_Join_nil_right e

/-- C2, a session: the packet loop fails to read and reports the end of the input, the
fetch loop moves while `Stream` receives the report and disconnects. -/
theorem Stream_returns_join_witness :
    (Stream.run Sim.env connIn connOut Sim.handler [.main]
      (Stream.run Sim.env connIn connOut Sim.handler ([.http] ++ .main :: [.http])
        (Sim.session [.mqtt, .mqtt, .mqtt] (Sim.ok [] [] 9)))).main =
      .returned (errors.Join [some EOF, none]) :=
  (Stream_returns_join Sim.env connIn connOut Sim.handler
    (Sim.session [.mqtt, .mqtt, .mqtt] (Sim.ok [] [] 9)) (some EOF) [] [Tid.http] [Tid.http]
    rfl rfl (by decide) (by decide) _ rfl none rfl).1

/-- C2 fails as stated: with a loop error `e` and a successful `h.Disconnect`, the error
`Stream` returns is not `e` but a join that wraps `e`. -/
theorem Stream_join_is_not_loop_error :
    eventsOf .main (Sim.session [.mqtt, .mqtt, .mqtt, .main, .main] (Sim.ok [] [] 9)).trace =
      [.recv (some EOF), .Disconnect .parent none] ∧
    (Sim.session [.mqtt, .mqtt, .mqtt, .main, .main] (Sim.ok [] [] 9)).main =
      .returned (some (.join [EOF])) ∧
    (some (GoError.join [EOF]) : error) ≠ some EOF := by
  refine ⟨rfl, rfl, ?_⟩
  simp [EOF]

/-- C3, the code at a packet loop whose context has expired: the loop reports the context
error, polls again, reports again, and so on; after `Stream` has returned the loop has sent
three values, has not returned, and its fourth send finds the channel full. -/
theorem streamMQTT_sends_after_expiry :
    eventsOf .mqtt (Sim.session [.mqtt, .mqtt, .mqtt, .mqtt, .main, .main, .mqtt, .mqtt, .mqtt]
        (Sim.ok [] [] 0)).trace =
      [.Done .mqtt (some DeadlineExceeded), .send (some DeadlineExceeded),
        .Done .mqtt (some DeadlineExceeded), .send (some DeadlineExceeded),
        .Done .mqtt (some DeadlineExceeded), .send (some DeadlineExceeded),
        .Done .mqtt (some DeadlineExceeded)] ∧
    (Sim.session [.mqtt, .mqtt, .mqtt, .mqtt, .main, .main, .mqtt, .mqtt, .mqtt]
        (Sim.ok [] [] 0)).main = .returned (some (.join [DeadlineExceeded])) ∧
    (Sim.session [.mqtt, .mqtt, .mqtt, .mqtt, .main, .main, .mqtt, .mqtt, .mqtt]
        (Sim.ok [] [] 0)).mqtt = .send (some DeadlineExceeded) false ∧
    (Sim.session [.mqtt, .mqtt, .mqtt, .mqtt, .main, .main, .mqtt, .mqtt, .mqtt]
        (Sim.ok [] [] 0)).errs = [some DeadlineExceeded, some DeadlineExceeded] ∧
    Stream.step Sim.env connIn connOut Sim.handler .mqtt
      (Sim.session [.mqtt, .mqtt, .mqtt, .mqtt, .main, .main, .mqtt, .mqtt, .mqtt]
        (Sim.ok [] [] 0)) = none :=
  ⟨rfl, rfl, rfl, rfl, rfl⟩

/-- C4, as the code has it: in every session `Stream(ctx, in, out, h)`, packets are read
only by the packet loop and only from `out`, packets are written only by the packet loop
and only to `in`, and payloads are written only by the fetch loop and only to `out`. -/
theorem Stream_wiring_holds (E : Env W) (inn out : Conn) (h : Handler W)
    (sched : List Tid) (σ : W) :
    (Stream E inn out h sched σ).trace.all (Stream.wiring inn out) = true :=
  Stream_run_invariant E inn out h (fun s => s.trace.all (Stream.wiring inn out) = true)
    (Stream_wiring_step E inn out h) sched _ rfl

/-- C4 fails as stated: the packet loop reads its packets from the connection passed as
`out` and relays them to the connection passed as `in`. -/
theorem Stream_wiring_not_spec :
    eventsOf .mqtt (Sim.session [.mqtt, .mqtt, .mqtt, .mqtt] (Sim.ok [.Connect] [] 9)).trace =
      [.Done .mqtt none, .ReadPacket connOut (.ok .Connect), .Connect .mqtt none,
        .PacketWrite .Connect connIn none] ∧
    connOut ≠ connIn ∧
    (Sim.session [.mqtt, .mqtt, .mqtt, .mqtt] (Sim.ok [.Connect] [] 9)).trace.all
      (Stream.specWiring connIn connOut) = false := by
  refine ⟨rfl, by decide, by decide⟩

/-- C5: when the packet loop reads a Publish packet and `h.Publish` fails with `E1`, the
loop writes one synthesized Disconnect packet to its output connection (the connection
`Stream` got as `in`), writes nothing else, sends one error and returns; the error contains
`E1` and, when the write failed with an error, that error too; and when the channel was empty
and `Stream` was waiting, `Stream` returns an error that contains them as well. -/
theorem streamMQTT_publish_failure (E : Env W) (inn out : Conn) (h : Handler W)
    (s : State W) (topic : String) (payload : Bytes) (E1 : GoError) (a b c : List Tid)
    (hpc : s.mqtt = .read)
    (hread : (E.ReadPacket out s.world).1 = .ok (.Publish topic payload))
    (ha : Tid.mqtt ∉ a) (hb : Tid.mqtt ∉ b) (hc : Tid.mqtt ∉ c)
    (s1 : State W) (hs1 : s1 = Stream.run E inn out h (.mqtt :: a) s)
    (hfail : (h.Publish .mqtt topic payload s1.world).1.1 = some E1)
    (s2 : State W) (hs2 : s2 = Stream.run E inn out h (.mqtt :: b) s1)
    (wErr : error) (hw : wErr = (E.PacketWrite packets.NewDisconnect inn s2.world).1)
    (s3 : State W) (hs3 : s3 = Stream.run E inn out h (.mqtt :: c) s2)
    (hroom : s3.errs.length < errsCap)
    (s4 : State W) (hs4 : s4 = Stream.run E inn out h [.mqtt] s3) :
    eventsOf .mqtt s4.trace = eventsOf .mqtt s.trace ++
      [.ReadPacket out (.ok (.Publish topic payload)),
        .Publish .mqtt topic payload (some E1) (h.Publish .mqtt topic payload s1.world).1.2,
        .PacketWrite packets.NewDisconnect inn wErr,
        .send (some (streamMQTT.publishError E1 wErr))] ∧
    s4.mqtt = .done ∧
    s4.errs = s3.errs ++ [some (streamMQTT.publishError E1 wErr)] ∧
    (streamMQTT.publishError E1 wErr).Contains E1 ∧
    (∀ x, wErr = some x → (streamMQTT.publishError E1 wErr).Contains x) ∧
    (∀ p q : List Tid, s3.main = .recv → s3.errs = [] → Tid.main ∉ p → Tid.main ∉ q →
      ∃ y, (Stream.run E inn out h (p ++ .main :: q ++ [.main]) s4).main = .returned (some y) ∧
        y.Contains E1 ∧ ∀ x, wErr = some x → y.Contains x) := by
  have st1 : Stream.step E inn out h .mqtt s = some { s with
      world := (E.ReadPacket out s.world).2,
      trace := s.trace ++ [(.mqtt, .ReadPacket out (.ok (.Publish topic payload)))],
      mqtt := .publish (.Publish topic payload) topic payload } := by
    simp [Stream.step, streamMQTT.step, hpc, hread, streamMQTT.switch]
  obtain ⟨pc1, ev1⟩ := Stream_mqtt_step_then E inn out h a ha st1
  rw [← hs1] at pc1 ev1
  simp only [eventsOf_append, eventsOf_single, if_true] at ev1
  have st2 : Stream.step E inn out h .mqtt s1 = some { s1 with
      world := (h.Publish .mqtt topic payload s1.world).2,
      trace := s1.trace ++ [(.mqtt, .Publish .mqtt topic payload (some E1)
        (h.Publish .mqtt topic payload s1.world).1.2)],
      mqtt := .pubFail E1 } := by
    simp [Stream.step, streamMQTT.step, pc1, hfail]
  obtain ⟨pc2, ev2⟩ := Stream_mqtt_step_then E inn out h b hb st2
  rw [← hs2] at pc2 ev2
  simp only [eventsOf_append, eventsOf_single, if_true] at ev2
  have st3 : Stream.step E inn out h .mqtt s2 = some { s2 with
      world := (E.PacketWrite packets.NewDisconnect inn s2.world).2,
      trace := s2.trace ++ [(.mqtt, .PacketWrite packets.NewDisconnect inn wErr)],
      mqtt := .send (some (streamMQTT.publishError E1 wErr)) true } := by
    simp [Stream.step, streamMQTT.step, pc2, hw]
  obtain ⟨pc3, ev3⟩ := Stream_mqtt_step_then E inn out h c hc st3
  rw [← hs3] at pc3 ev3
  simp only [eventsOf_append, eventsOf_single, if_true] at ev3
  have st4 : Stream.step E inn out h .mqtt s3 = some { s3 with
      errs := s3.errs ++ [some (streamMQTT.publishError E1 wErr)],
      trace := s3.trace ++ [(.mqtt, .send (some (streamMQTT.publishError E1 wErr)))],
      mqtt := .done } := by
    simp [Stream.step, streamMQTT.step, pc3, hroom]
  have e4 : s4 = { s3 with
      errs := s3.errs ++ [some (streamMQTT.publishError E1 wErr)],
      trace := s3.trace ++ [(.mqtt, .send (some (streamMQTT.publishError E1 wErr)))],
      mqtt := .done } := by
    rw [hs4, Stream_run_cons, st4]; rfl
  have hc1 := publishError_contains_left E1 wErr
  have hc2 : ∀ x, wErr = some x → (streamMQTT.publishError E1 wErr).Contains x := by
    intro x hx; rw [hx]; exact publishError_contains_right E1 x
  refine ⟨?_, ?_, ?_, hc1, hc2, ?_⟩
  · rw [e4]; simp [eventsOf_append, eventsOf_single, ev3, ev2, ev1]
  · rw [e4]
  · rw [e4]
  · intro p q hmain hempty hp hq
    have hm4 : s4.main = .recv := by rw [e4]; exact hmain
    have hc4 : s4.errs = some (streamMQTT.publishError E1 wErr) :: [] := by
      rw [e4]; simp [hempty]
    obtain ⟨_, r2, _⟩ := Stream_main_returns E inn out h s4 _ [] p q hm4 hc4 hp hq
    obtain ⟨y, hy, hcy⟩ := errors_Join_contains_left (streamMQTT.publishError E1 wErr)
      (h.Disconnect .parent (Stream.run E inn out h (p ++ .main :: q) s4).world).1
    refine ⟨y, ?_, GoError_Contains_trans hcy hc1, fun x hx => GoError_Contains_trans hcy (hc2 x hx)⟩
    rw [← hy, ← r2, ← Stream_run_append]

/-- C5, a session: `h.Publish` is refused and the write of the Disconnect packet fails; the
fetch loop moves in between. -/
theorem streamMQTT_publish_failure_witness :
    (Stream.run Sim.env connIn connOut Sim.handler [.mqtt]
      (Stream.run Sim.env connIn connOut Sim.handler (.mqtt :: [])
        (Stream.run Sim.env connIn connOut Sim.handler (.mqtt :: [.http])
          (Stream.run Sim.env connIn connOut Sim.handler (.mqtt :: [.http])
            (Sim.session [.mqtt] Sim.denied))))).mqtt = .done :=
  (streamMQTT_publish_failure Sim.env connIn connOut Sim.handler
    (Sim.session [.mqtt] Sim.denied) "sensors/temp" [1, 2] (.base "denied")
    [Tid.http] [Tid.http] [] rfl rfl (by decide) (by decide) (by decide)
    _ rfl rfl _ rfl (some (.base "broken pipe")) rfl _ rfl (by decide) _ rfl).2.1

/-- C6, as the code has it: in every session, once the packet loop has returned with all its
operations successful (its context alive at every poll, every read, handler call and write),
the packets it read are some packets `ps` without a Disconnect packet followed by one
Disconnect packet; it wrote the packets of `ps`, in order, to its output connection (the
connection `Stream` got as `in`), each Publish packet with the payload `h.Publish` left, so
exactly `ps` when the calls left the payloads as they were, and did not write the Disconnect
packet; its handler calls are, in order, one Connect per Connect packet and one Publish per
Publish packet of `ps`, with the topic and payload of the packet as read, and one
Disconnect; and it sent one value, nil. When the
fetch loop has sent nothing and the operations of `Stream` itself succeeded, `Stream` has
returned nil or, if it still waits, returns nil after its successful `h.Disconnect`. And the
loop does return so: in the scripted world without failures it returns within four steps per
packet, all operations successful, for every such sequence of packets. -/
theorem streamMQTT_relays_until_disconnect (E : Env W) (inn out : Conn) (h : Handler W)
    (sched : List Tid) (σ : W) (s : State W) (hs : s = Stream E inn out h sched σ)
    (hok : (eventsOf .mqtt s.trace).all Event.ok = true) (hdone : s.mqtt = .done) :
    (∃ ps written : List ControlPacket,
      packetsRead s.trace = ps ++ [.Disconnect] ∧
      ControlPacket.Disconnect ∉ ps ∧
      packetsWritten s.trace = written.map (fun p => (p, inn)) ∧
      written.map ControlPacket.erase = ps.map ControlPacket.erase ∧
      written.filterMap ControlPacket.payload = payloadsLeft s.trace ∧
      (payloadsLeft s.trace = ps.filterMap ControlPacket.payload → written = ps) ∧
      handlerCalls .mqtt s.trace =
        (ps ++ [ControlPacket.Disconnect]).filterMap Call.ofPacket ∧
      sends .mqtt s.trace = [none] ∧
      (sends .http s.trace = [] → (eventsOf .main s.trace).all Event.ok = true →
        (∀ r, s.main = .returned r → r = none) ∧
        (∀ p q : List Tid, s.main = .recv → Tid.main ∉ p → Tid.main ∉ q →
          (h.Disconnect .parent (Stream.run E inn out h (p ++ .main :: q) s).world).1 = none →
          (Stream.run E inn out h (p ++ .main :: q ++ [.main]) s).main = .returned none))) ∧
    (∀ (ps later : List ControlPacket) (life n : Nat),
      ControlPacket.Disconnect ∉ ps → ps.length < life → 4 * ps.length + 4 ≤ n →
      (Sim.session (List.replicate n .mqtt) (Sim.ok (ps ++ .Disconnect :: later) [] life)).mqtt
        = .done ∧
      (eventsOf .mqtt (Sim.session (List.replicate n .mqtt)
        (Sim.ok (ps ++ .Disconnect :: later) [] life)).trace).all Event.ok = true ∧
      packetsRead (Sim.session (List.replicate n .mqtt)
        (Sim.ok (ps ++ .Disconnect :: later) [] life)).trace = ps ++ [.Disconnect]) := by
  refine ⟨?_, ?_⟩
  case refine_2 =>
    intro ps later life n hps hlife hn
    obtain ⟨evs, hdone', hev, hok', hrd⟩ := Sim_packet_loop_returns later ps hps
      (Stream.start (Sim.ok (ps ++ .Disconnect :: later) [] life)) n rfl rfl hlife
      ⟨rfl, rfl, rfl, rfl⟩ (by simp [Stream.start, errsCap]) hn
    have hev' : eventsOf .mqtt (Sim.session (List.replicate n .mqtt)
        (Sim.ok (ps ++ .Disconnect :: later) [] life)).trace = evs := by
      rw [show Sim.session (List.replicate n .mqtt)
          (Sim.ok (ps ++ .Disconnect :: later) [] life) =
        Stream.run Sim.env connIn connOut Sim.handler (List.replicate n .mqtt)
          (Stream.start (Sim.ok (ps ++ .Disconnect :: later) [] life)) from rfl, hev]
      rfl
    refine ⟨hdone', ?_, ?_⟩
    · rw [hev']; exact hok'
    · unfold packetsRead; rw [hev']; exact hrd
  have hinv := MqttOkInv_holds E inn out h sched σ
  rw [← hs, hdone] at hinv
  obtain ⟨_, q2, q3, q4, q5, q6⟩ := hinv hok
  simp only [MqttPc.inHand, MqttPc.uncalled, MqttPc.sentOk, MqttPc.handled,
    List.filterMap_nil, List.append_nil, List.map_append, List.map_cons, List.map_nil]
    at q3 q4 q5 q6
  obtain ⟨ps, x, hR, hps, hx⟩ := map_eq_snoc q3
  have hx' : x = .Disconnect := erase_eq_Disconnect hx
  subst hx'
  have hnot : ControlPacket.Disconnect ∉ ps := by
    intro hmem
    have h1 : ControlPacket.erase .Disconnect ∈ ps.map ControlPacket.erase :=
      List.mem_map_of_mem _ hmem
    rw [hps] at h1
    obtain ⟨y, hy, hy1⟩ := List.mem_map.1 h1
    obtain ⟨z, hz, hz1⟩ := List.mem_map.1 hy
    exact (q2 z hz).1 (by rw [hz1]; exact erase_eq_Disconnect hy1)
  refine ⟨ps, (packetsWritten s.trace).map Prod.fst, hR, hnot, ?_, hps.symm, q5, ?_, ?_, q6, ?_⟩
  · exact map_fst_pair inn _ (fun x hx => (q2 x hx).2)
  · intro hleft
    exact eq_of_erase_payload _ ps hps.symm (q5.trans hleft)
  · unfold handlerCalls; rw [q4]; exact congrArg _ hR
  · intro hhttp hmainok
    have hmain := MainInv_holds E inn out h sched σ
    have hfifo := allSent_holds E inn out h sched σ
    rw [← hs] at hmain hfifo
    have hall : allSent s.trace = [none] := by
      rw [allSent_eq_mqtt s.trace (MainInv_sends hmain) hhttp]; exact q6
    rw [hall] at hfifo
    refine ⟨?_, ?_⟩
    · intro r hr
      rw [hr] at hmain
      obtain ⟨e, d, hev, hjoin⟩ := hmain
      rw [hev] at hfifo hmainok
      simp [Event.received] at hfifo
      simp [Event.ok] at hmainok
      have hd : d = none := by
        cases d with
        | none => rfl
        | some x => simp [Event.ok] at hmainok
      rw [hjoin, ← hfifo.1, hd]; rfl
    · intro p q hrecv hp hq hd
      rw [hrecv] at hmain
      simp only [MainInv] at hmain
      rw [hmain] at hfifo
      simp at hfifo
      obtain ⟨_, r2, _⟩ := Stream_main_returns E inn out h s none [] p q hrecv hfifo.symm hp hq
      rw [← Stream_run_append, hd] at r2
      exact r2

/-- C6, the scenario of the specification: the packet loop reads Connect, Publish with topic
`sensors/temp` and payload `01 02`, and Disconnect, and every operation succeeds. -/
theorem streamMQTT_relays_until_disconnect_witness :
    handlerCalls .mqtt (Sim.session (List.replicate 12 Tid.mqtt ++ [.main, .main])
      (Sim.ok [.Connect, .Publish "sensors/temp" [1, 2], .Disconnect] [] 9)).trace =
      [.Connect, .Publish "sensors/temp" [1, 2], .Disconnect] ∧
    sends .mqtt (Sim.session (List.replicate 12 Tid.mqtt ++ [.main, .main])
      (Sim.ok [.Connect, .Publish "sensors/temp" [1, 2], .Disconnect] [] 9)).trace =
      [none] := by
  obtain ⟨⟨ps, written, h1, _, _, _, _, _, h4, h5, _⟩, _⟩ :=
    streamMQTT_relays_until_disconnect Sim.env connIn
    connOut Sim.handler (List.replicate 12 Tid.mqtt ++ [Tid.main, Tid.main])
    (Sim.ok [.Connect, .Publish "sensors/temp" [1, 2], .Disconnect] [] 9) _ rfl
    (by decide) rfl
  have hread : packetsRead (Sim.session (List.replicate 12 Tid.mqtt ++ [.main, .main])
      (Sim.ok [.Connect, .Publish "sensors/temp" [1, 2], .Disconnect] [] 9)).trace =
      [.Connect, .Publish "sensors/temp" [1, 2]] ++ [.Disconnect] := by decide
  have hps : ps = [.Connect, .Publish "sensors/temp" [1, 2]] :=
    (List.append_cancel_right (h1.symm.trans hread))
  subst hps
  exact ⟨h4, h5⟩

/-- C6 fails as stated: in the scenario of the specification the packet loop relays the
Connect and the Publish packet but not the Disconnect packet, on which it returns; and a
Publish packet is relayed with the payload `h.Publish` left, here `09` for `01 02`. -/
theorem streamMQTT_disconnect_not_relayed :
    packetsRead (Sim.session (List.replicate 12 Tid.mqtt ++ [.main, .main])
      (Sim.ok [.Connect, .Publish "sensors/temp" [1, 2], .Disconnect] [] 9)).trace =
      [.Connect, .Publish "sensors/temp" [1, 2], .Disconnect] ∧
    packetsWritten (Sim.session (List.replicate 12 Tid.mqtt ++ [.main, .main])
      (Sim.ok [.Connect, .Publish "sensors/temp" [1, 2], .Disconnect] [] 9)).trace =
      [(.Connect, connIn), (.Publish "sensors/temp" [1, 2], connIn)] ∧
    ((eventsOf .mqtt (Sim.session (List.replicate 12 Tid.mqtt ++ [.main, .main])
      (Sim.ok [.Connect, .Publish "sensors/temp" [1, 2], .Disconnect] [] 9)).trace).all
        Event.ok = true) ∧
    (Sim.session (List.replicate 12 Tid.mqtt ++ [.main, .main])
      (Sim.ok [.Connect, .Publish "sensors/temp" [1, 2], .Disconnect] [] 9)).mqtt = .done ∧
    (Sim.session (List.replicate 12 Tid.mqtt ++ [.main, .main])
      (Sim.ok [.Connect, .Publish "sensors/temp" [1, 2], .Disconnect] [] 9)).main =
      .returned none ∧
    packetsRead (Sim.session (List.replicate 8 Tid.mqtt) Sim.rewriting).trace =
      [.Publish "sensors/temp" [1, 2], .Disconnect] ∧
    handlerCalls .mqtt (Sim.session (List.replicate 8 Tid.mqtt) Sim.rewriting).trace =
      [.Publish "sensors/temp" [1, 2], .Disconnect] ∧
    packetsWritten (Sim.session (List.replicate 8 Tid.mqtt) Sim.rewriting).trace =
      [(.Publish "sensors/temp" [9], connIn)] ∧
    ((eventsOf .mqtt (Sim.session (List.replicate 8 Tid.mqtt) Sim.rewriting).trace).all
        Event.ok = true) := by
  refine ⟨by decide, by decide, by decide, rfl, rfl, by decide, by decide, by decide,
    by decide⟩

/-- C7: when the packet loop reads a packet that is neither Connect nor Publish nor
Disconnect, its next operation is the write of that same packet to its output connection
(the connection `Stream` got as `in`), with no handler call in between; after a successful
write the loop is back at the top of its loop, after a failed one it sends the write error
and returns. -/
theorem streamMQTT_relays_other (E : Env W) (inn out : Conn) (h : Handler W)
    (s : State W) (pkt : ControlPacket) (a b : List Tid)
    (hpc : s.mqtt = .read) (hread : (E.ReadPacket out s.world).1 = .ok pkt)
    (hk1 : pkt ≠ .Connect) (hk2 : ∀ topic payload, pkt ≠ .Publish topic payload)
    (hk3 : pkt ≠ .Disconnect)
    (ha : Tid.mqtt ∉ a) (hb : Tid.mqtt ∉ b)
    (s1 : State W) (hs1 : s1 = Stream.run E inn out h (.mqtt :: a) s)
    (wErr : error) (hw : wErr = (E.PacketWrite pkt inn s1.world).1)
    (s2 : State W) (hs2 : s2 = Stream.run E inn out h (.mqtt :: b) s1) :
    eventsOf .mqtt s2.trace = eventsOf .mqtt s.trace ++
      [.ReadPacket out (.ok pkt), .PacketWrite pkt inn wErr] ∧
    (wErr = none → s2.mqtt = .top) ∧
    (∀ x, wErr = some x → s2.mqtt = .send (some x) true ∧
      (s2.errs.length < errsCap →
        (Stream.run E inn out h [.mqtt] s2).mqtt = .done ∧
        (Stream.run E inn out h [.mqtt] s2).errs = s2.errs ++ [some x] ∧
        eventsOf .mqtt (Stream.run E inn out h [.mqtt] s2).trace =
          eventsOf .mqtt s2.trace ++ [.send (some x)])) := by
  subst hw
  have hsw : streamMQTT.switch pkt = .relay pkt := by
    cases pkt with
    | Connect => exact absurd rfl hk1
    | Publish t p => exact absurd rfl (hk2 t p)
    | Disconnect => exact absurd rfl hk3
    | Other raw => rfl
  have st1 : Stream.step E inn out h .mqtt s = some { s with
      world := (E.ReadPacket out s.world).2,
      trace := s.trace ++ [(.mqtt, .ReadPacket out (.ok pkt))],
      mqtt := .relay pkt } := by
    simp [Stream.step, streamMQTT.step, hpc, hread, hsw]
  obtain ⟨pc1, ev1⟩ := Stream_mqtt_step_then E inn out h a ha st1
  rw [← hs1] at pc1 ev1
  simp only [eventsOf_append, eventsOf_single, if_true] at pc1 ev1
  have st2 : Stream.step E inn out h .mqtt s1 = some { s1 with
      world := (E.PacketWrite pkt inn s1.world).2,
      trace := s1.trace ++ [(.mqtt, .PacketWrite pkt inn (E.PacketWrite pkt inn s1.world).1)],
      mqtt := match (E.PacketWrite pkt inn s1.world).1 with
        | some err => .send (some err) true
        | none => .top } := by
    simp [Stream.step, streamMQTT.step, pc1]
  obtain ⟨pc2, ev2⟩ := Stream_mqtt_step_then E inn out h b hb st2
  rw [← hs2] at pc2 ev2
  simp only [eventsOf_append, eventsOf_single, if_true] at pc2 ev2
  refine ⟨by simp [ev2, ev1], ?_, ?_⟩
  · intro hn; rw [pc2, hn]
  · intro x hx
    have pc2x : s2.mqtt = .send (some x) true := by rw [pc2, hx]
    refine ⟨pc2x, fun hroom => ?_⟩
    rw [Stream_mqtt_send E inn out h s2 (some x) true pc2x hroom]
    simp [eventsOf_append, eventsOf_single]

/-- C7, a session: the packet loop reads a packet of another kind and relays it. -/
theorem streamMQTT_relays_other_witness :
    eventsOf .mqtt (Stream.run Sim.env connIn connOut Sim.handler (.mqtt :: [.http])
      (Stream.run Sim.env connIn connOut Sim.handler (.mqtt :: [.http])
        (Sim.session [.mqtt] (Sim.ok [.Other [192, 0]] [] 9)))).trace =
      eventsOf .mqtt (Sim.session [.mqtt] (Sim.ok [.Other [192, 0]] [] 9)).trace ++
        [.ReadPacket connOut (.ok (.Other [192, 0])),
          .PacketWrite (.Other [192, 0]) connIn none] :=
  (streamMQTT_relays_other Sim.env connIn connOut Sim.handler
    (Sim.session [.mqtt] (Sim.ok [.Other [192, 0]] [] 9)) (.Other [192, 0])
    [Tid.http] [Tid.http] rfl rfl (by decide) (by intro _ _ hq; cases hq) (by decide)
    (by decide) (by decide) _ rfl none rfl _ rfl).1

/-- C8: one iteration of the fetch loop from the fetch on. When the fetch returns a payload
`B` and `h.Connect` then succeeds, the next operation of the loop is the write of exactly `B`
to the output connection, after the Connect call. When the fetch fails, or `h.Connect` fails,
the loop does nothing but send that error and return, so nothing is written. -/
theorem streamHTTP_iteration (E : Env W) (inn out : Conn) (h : Handler W)
    (s : State W) (a b : List Tid)
    (hpc : s.http = .fetch) (ha : Tid.http ∉ a) (hb : Tid.http ∉ b)
    (s1 : State W) (hs1 : s1 = Stream.run E inn out h (.http :: a) s)
    (s2 : State W) (hs2 : s2 = Stream.run E inn out h (.http :: b) s1) :
    (∀ B, (E.FetchFromReg .http s.world).1 = .ok B → (h.Connect .http s1.world).1 = none →
      eventsOf .http (Stream.run E inn out h [.http] s2).trace = eventsOf .http s.trace ++
        [.FetchFromReg .http (.ok B), .Connect .http none,
          .Write out B (E.Write out B s2.world).1] ∧
      ((E.Write out B s2.world).1 = none → (Stream.run E inn out h [.http] s2).http = .top) ∧
      (∀ e, (E.Write out B s2.world).1 = some e →
        (Stream.run E inn out h [.http] s2).http = .send (some e))) ∧
    (∀ e, (E.FetchFromReg .http s.world).1 = .error e →
      s1.http = .send (some e) ∧
      eventsOf .http s1.trace = eventsOf .http s.trace ++ [.FetchFromReg .http (.error e)] ∧
      (s1.errs.length < errsCap →
        (Stream.run E inn out h [.http] s1).http = .done ∧
        (Stream.run E inn out h [.http] s1).errs = s1.errs ++ [some e] ∧
        eventsOf .http (Stream.run E inn out h [.http] s1).trace =
          eventsOf .http s1.trace ++ [.send (some e)])) ∧
    (∀ B e, (E.FetchFromReg .http s.world).1 = .ok B → (h.Connect .http s1.world).1 = some e →
      s2.http = .send (some e) ∧
      eventsOf .http s2.trace = eventsOf .http s.trace ++
        [.FetchFromReg .http (.ok B), .Connect .http (some e)] ∧
      (s2.errs.length < errsCap →
        (Stream.run E inn out h [.http] s2).http = .done ∧
        (Stream.run E inn out h [.http] s2).errs = s2.errs ++ [some e] ∧
        eventsOf .http (Stream.run E inn out h [.http] s2).trace =
          eventsOf .http s2.trace ++ [.send (some e)])) := by
  have st1 : Stream.step E inn out h .http s = some { s with
      world := (E.FetchFromReg .http s.world).2,
      trace := s.trace ++ [(.http, .FetchFromReg .http (E.FetchFromReg .http s.world).1)],
      http := match (E.FetchFromReg .http s.world).1 with
        | .error err => .send (some err)
        | .ok data => .connect data } := by
    simp [Stream.step, streamHTTP.step, hpc]
  obtain ⟨pc1, ev1⟩ := Stream_http_step_then E inn out h a ha st1
  rw [← hs1] at pc1 ev1
  simp only [eventsOf_append, eventsOf_single, if_true] at pc1 ev1
  have okcase : ∀ B, (E.FetchFromReg .http s.world).1 = .ok B →
      s2.http = (match (h.Connect .http s1.world).1 with
        | some err => .send (some err)
        | none => .write B) ∧
      eventsOf .http s2.trace = eventsOf .http s.trace ++
        [.FetchFromReg .http (.ok B), .Connect .http (h.Connect .http s1.world).1] := by
    intro B hB
    rw [hB] at pc1 ev1
    have st2 : Stream.step E inn out h .http s1 = some { s1 with
        world := (h.Connect .http s1.world).2,
        trace := s1.trace ++ [(.http, .Connect .http (h.Connect .http s1.world).1)],
        http := match (h.Connect .http s1.world).1 with
          | some err => .send (some err)
          | none => .write B } := by
      simp [Stream.step, streamHTTP.step, pc1]
    obtain ⟨pc2, ev2⟩ := Stream_http_step_then E inn out h b hb st2
    rw [← hs2] at pc2 ev2
    simp only [eventsOf_append, eventsOf_single, if_true] at pc2 ev2
    exact ⟨pc2, by simp [ev2, ev1]⟩
  refine ⟨?_, ?_, ?_⟩
  · intro B hB hC
    obtain ⟨pc2, ev2⟩ := okcase B hB
    rw [hC] at pc2 ev2
    have st3 : Stream.run E inn out h [.http] s2 = { s2 with
        world := (E.Write out B s2.world).2,
        trace := s2.trace ++ [(.http, .Write out B (E.Write out B s2.world).1)],
        http := match (E.Write out B s2.world).1 with
          | some err => .send (some err)
          | none => .top } := by
      simp [Stream_run_cons, Stream_run_nil, Stream.step, streamHTTP.step, pc2]
    rw [st3]
    refine ⟨by simp [eventsOf_append, eventsOf_single, ev2], ?_, ?_⟩
    · intro hn; simp [hn]
    · intro e he; simp [he]
  · intro e he
    rw [he] at pc1 ev1
    refine ⟨pc1, ev1, fun hroom => ?_⟩
    rw [Stream_http_send E inn out h s1 (some e) pc1 hroom]
    simp [eventsOf_append, eventsOf_single]
  · intro B e hB hC
    obtain ⟨pc2, ev2⟩ := okcase B hB
    rw [hC] at pc2 ev2
    refine ⟨pc2, ev2, fun hroom => ?_⟩
    rw [Stream_http_send E inn out h s2 (some e) pc2 hroom]
    simp [eventsOf_append, eventsOf_single]

/-- C8, a session: the fetch loop fetches the payload `10 20 30`, connects and writes it,
while the packet loop moves. -/
theorem streamHTTP_iteration_witness :
    eventsOf .http (Stream.run Sim.env connIn connOut Sim.handler [.http]
      (Stream.run Sim.env connIn connOut Sim.handler (.http :: [.mqtt])
        (Stream.run Sim.env connIn connOut Sim.handler (.http :: [.mqtt])
          (Sim.session [.http, .http] (Sim.ok [] [[10, 20, 30]] 9))))).trace =
      eventsOf .http (Sim.session [.http, .http] (Sim.ok [] [[10, 20, 30]] 9)).trace ++
        [.FetchFromReg .http (.ok [10, 20, 30]), .Connect .http none,
          .Write connOut [10, 20, 30] none] :=
  ((streamHTTP_iteration Sim.env connIn connOut Sim.handler
    (Sim.session [.http, .http] (Sim.ok [] [[10, 20, 30]] 9)) [Tid.mqtt] [Tid.mqtt]
    rfl (by decide) (by decide) _ rfl _ rfl).1 [10, 20, 30] rfl rfl).1

/-- C9: when the packet loop reads a Disconnect packet, it calls `h.Disconnect`, sends
exactly the result `d1` of that call, and returns; when the channel was empty and `Stream`
was waiting, `Stream` returns `errors.Join(d1, d2)`, `d2` being the result of its own call
of `h.Disconnect`, so nil when both calls succeed. -/
theorem streamMQTT_disconnect_packet (E : Env W) (inn out : Conn) (h : Handler W)
    (s : State W) (a b : List Tid)
    (hpc : s.mqtt = .read) (hread : (E.ReadPacket out s.world).1 = .ok .Disconnect)
    (ha : Tid.mqtt ∉ a) (hb : Tid.mqtt ∉ b)
    (s1 : State W) (hs1 : s1 = Stream.run E inn out h (.mqtt :: a) s)
    (d1 : error) (hd1 : d1 = (h.Disconnect .mqtt s1.world).1)
    (s2 : State W) (hs2 : s2 = Stream.run E inn out h (.mqtt :: b) s1)
    (hroom : s2.errs.length < errsCap)
    (s3 : State W) (hs3 : s3 = Stream.run E inn out h [.mqtt] s2) :
    eventsOf .mqtt s3.trace = eventsOf .mqtt s.trace ++
      [.ReadPacket out (.ok .Disconnect), .Disconnect .mqtt d1, .send d1] ∧
    s3.mqtt = .done ∧
    s3.errs = s2.errs ++ [d1] ∧
    (∀ p q : List Tid, s2.main = .recv → s2.errs = [] → Tid.main ∉ p → Tid.main ∉ q →
      (Stream.run E inn out h (p ++ .main :: q ++ [.main]) s3).main =
        .returned (errors.Join [d1,
          (h.Disconnect .parent (Stream.run E inn out h (p ++ .main :: q) s3).world).1]) ∧
      (d1 = none →
        (h.Disconnect .parent (Stream.run E inn out h (p ++ .main :: q) s3).world).1 = none →
        (Stream.run E inn out h (p ++ .main :: q ++ [.main]) s3).main = .returned none)) := by
  subst hd1
  have st1 : Stream.step E inn out h .mqtt s = some { s with
      world := (E.ReadPacket out s.world).2,
      trace := s.trace ++ [(.mqtt, .ReadPacket out (.ok .Disconnect))],
      mqtt := .disconnect } := by
    simp [Stream.step, streamMQTT.step, hpc, hread, streamMQTT.switch]
  obtain ⟨pc1, ev1⟩ := Stream_mqtt_step_then E inn out h a ha st1
  rw [← hs1] at pc1 ev1
  simp only [eventsOf_append, eventsOf_single, if_true] at pc1 ev1
  have st2 : Stream.step E inn out h .mqtt s1 = some { s1 with
      world := (h.Disconnect .mqtt s1.world).2,
      trace := s1.trace ++ [(.mqtt, .Disconnect .mqtt (h.Disconnect .mqtt s1.world).1)],
      mqtt := .send (h.Disconnect .mqtt s1.world).1 true } := by
    simp [Stream.step, streamMQTT.step, pc1]
  obtain ⟨pc2, ev2⟩ := Stream_mqtt_step_then E inn out h b hb st2
  rw [← hs2] at pc2 ev2
  simp only [eventsOf_append, eventsOf_single, if_true] at pc2 ev2
  have e3 := Stream_mqtt_send E inn out h s2 _ true pc2 hroom
  rw [← hs3] at e3
  refine ⟨?_, ?_, ?_, ?_⟩
  · rw [e3]; simp [eventsOf_append, eventsOf_single, ev2, ev1]
  · rw [e3]; rfl
  · rw [e3]
  · intro p q hmain hempty hp hq
    have hm3 : s3.main = .recv := by rw [e3]; exact hmain
    have hc3 : s3.errs = (h.Disconnect .mqtt s1.world).1 :: [] := by
      rw [e3]; simp [hempty]
    obtain ⟨_, r2, _⟩ := Stream_main_returns E inn out h s3 _ [] p q hm3 hc3 hp hq
    rw [← Stream_run_append] at r2
    refine ⟨r2, fun h1 h2 => ?_⟩
    rw [r2, h1, h2]; rfl

/-- C9, a session: the packet loop reads a Disconnect packet, the fetch loop moves in
between, and `Stream` receives the report. -/
theorem streamMQTT_disconnect_packet_witness :
    eventsOf .mqtt (Stream.run Sim.env connIn connOut Sim.handler [.mqtt]
      (Stream.run Sim.env connIn connOut Sim.handler (.mqtt :: [.http])
        (Stream.run Sim.env connIn connOut Sim.handler (.mqtt :: [.http])
          (Sim.session [.mqtt] (Sim.ok [.Disconnect] [] 9))))).trace =
      eventsOf .mqtt (Sim.session [.mqtt] (Sim.ok [.Disconnect] [] 9)).trace ++
        [.ReadPacket connOut (.ok .Disconnect), .Disconnect .mqtt none, .send none] :=
  (streamMQTT_disconnect_packet Sim.env connIn connOut Sim.handler
    (Sim.session [.mqtt] (Sim.ok [.Disconnect] [] 9)) [Tid.http] [Tid.http]
    rfl rfl (by decide) (by decide) _ rfl none rfl _ rfl (by decide) _ rfl).1

/-- C10, the code at a session whose two loop contexts are done from the start: the packet
loop, which sends again after every poll, fills the channel; the fetch loop initialises,
finds its context expired, and comes to the send of the context error with no fetch, Connect
call or write; that send finds the channel full, after `Stream` has returned, and under
every further schedule the fetch loop still stands there and has sent nothing. -/
theorem streamHTTP_send_blocked :
    eventsOf .http (Sim.session Sim.floodSchedule (Sim.ok [] [] 0)).trace =
      [.Init none, .Done .http (some DeadlineExceeded)] ∧
    (Sim.session Sim.floodSchedule (Sim.ok [] [] 0)).http = .send (some DeadlineExceeded) ∧
    (Sim.session Sim.floodSchedule (Sim.ok [] [] 0)).main =
      .returned (some (.join [DeadlineExceeded])) ∧
    (Sim.session Sim.floodSchedule (Sim.ok [] [] 0)).errs =
      [some DeadlineExceeded, some DeadlineExceeded] ∧
    sends .mqtt (Sim.session Sim.floodSchedule (Sim.ok [] [] 0)).trace =
      [some DeadlineExceeded, some DeadlineExceeded, some DeadlineExceeded] ∧
    sends .http (Sim.session Sim.floodSchedule (Sim.ok [] [] 0)).trace = [] ∧
    Stream.step Sim.env connIn connOut Sim.handler .http
      (Sim.session Sim.floodSchedule (Sim.ok [] [] 0)) = none ∧
    (∀ sched : List Tid,
      (Stream.run Sim.env connIn connOut Sim.handler sched
        (Sim.session Sim.floodSchedule (Sim.ok [] [] 0))).http =
          .send (some DeadlineExceeded) ∧
      sends .http (Stream.run Sim.env connIn connOut Sim.handler sched
        (Sim.session Sim.floodSchedule (Sim.ok [] [] 0))).trace = []) := by
  refine ⟨rfl, rfl, rfl, rfl, rfl, rfl, rfl, fun sched => ?_⟩
  have hstuck : Sim.Stuck (Sim.session Sim.floodSchedule (Sim.ok [] [] 0)) :=
    ⟨rfl, rfl, rfl, rfl, rfl, Or.inl rfl⟩
  have hrun := Stream_run_invariant Sim.env connIn connOut Sim.handler Sim.Stuck
    Sim_Stuck_step sched _ hstuck
  exact ⟨hrun.1, hrun.2.1⟩

end Claims

end Proxy
